import Mathlib

/-!
Shallow embedding of the quality-report engine of ckanext-qa
(src/ckanext/qa/reports.py), together with proofs about the report
operations.  Python dictionaries are modelled as association lists with
update-in-place semantics, SQL result streams as Lean lists, timestamps as
naturals and string-typed status values as Lean strings (compared with the
lexicographic string order, matching both Python 2 string comparison and
SQL text collation).  Fallible Python code is modelled with Except, with
PyErr naming the class of the exception that escapes.
-/

/-- Classes of Python exceptions that can escape from the embedded code. -/
inductive PyErr where
  | keyError
  | nameError
  | valueError
  | attributeError
  | typeError
deriving Repr, DecidableEq

/-- Values stored in the report dictionaries: strings, ints (resource
positions), timestamps (datetime) and None. -/
inductive PyVal where
  | str (s : String)
  | int (n : Int)
  | time (t : Nat)
  | pynone
deriving Repr, DecidableEq

/-- Result of Python json.loads on a task_status.error payload: either the
string is not valid JSON, or it parses to an object with string fields. -/
inductive PyJson where
  | malformed
  | obj (kvs : List (String × String))
deriving Repr, DecidableEq

/-- Lookup in an association list, first binding wins (Python dict lookup;
our dicts keep keys unique). -/
def assocGet? {κ ν : Type} [DecidableEq κ] : List (κ × ν) → κ → Option ν
  | [], _ => Option.none
  | (k, v) :: rest, k2 => if k = k2 then some v else assocGet? rest k2

/-- Update-or-append for an association list: Python dict assignment keeps
the position of an existing key and appends a fresh key at the end. -/
def assocSet {κ ν : Type} [DecidableEq κ] : List (κ × ν) → κ → ν → List (κ × ν)
  | [], k2, v2 => [(k2, v2)]
  | (k, v) :: rest, k2, v2 =>
    if k = k2 then (k2, v2) :: rest else (k, v) :: assocSet rest k2 v2

/-- Lookup with a default value. -/
def lookupD {κ ν : Type} [DecidableEq κ] (d : List (κ × ν)) (k : κ) (dflt : ν) : ν :=
  (assocGet? d k).getD dflt

/-- Lexicographic comparison of character lists by code point, the order
both Python 2 string comparison and SQL text collation use on the ASCII
data appearing in these tables. -/
def listCharLt : List Char → List Char → Bool
  | [], [] => false
  | [], _ :: _ => true
  | _ :: _, [] => false
  | a :: as, b :: bs =>
    if a.toNat < b.toNat then true
    else if b.toNat < a.toNat then false
    else listCharLt as bs

/-- Lexicographic strict order on strings. -/
def strLt (a b : String) : Bool := listCharLt a.data b.data

/-- Lexicographic weak order on strings. -/
def strLe (a b : String) : Bool := !(strLt b a)

/-- SQL MAX over a text column compares strings, not numbers. -/
def strMax (a b : String) : String := if strLt a b then b else a

/-! ## Data model: the database tables read by reports.py -/

/-- Row of the package table. -/
structure PackageRec where
  id : String
  name : String
  title : String
  state : String
deriving Repr, DecidableEq

/-- Row of the resource table. -/
structure ResourceRec where
  id : String
  url : String
  position : Int
  state : String
  resource_group_id : String
deriving Repr, DecidableEq

/-- Row of the resource_group table. -/
structure ResourceGroupRec where
  id : String
  package_id : String
  state : String
deriving Repr, DecidableEq

/-- Row of the member table (package to group membership). -/
structure MemberRec where
  table_id : String
  group_id : String
deriving Repr, DecidableEq

/-- Row of the group table (organisations / publishers). -/
structure GroupRec where
  id : String
  name : String
  title : String
  state : String
deriving Repr, DecidableEq

/-- Row of the task_status table.  The error column is a string in the
database; we model it already split by Python truthiness and json.loads:
none stands for NULL or the empty string (falsy), some .malformed for a
non-empty string that json.loads rejects and some (.obj kvs) for a
non-empty string parsing to the object kvs. -/
structure TaskStatusRec where
  entity_id : String
  task_type : String
  key : String
  value : String
  error : Option PyJson
  last_updated : Nat
deriving Repr, DecidableEq

/-- Snapshot of the record store read by one report computation. -/
structure Db where
  task_status : List TaskStatusRec
  resource : List ResourceRec
  resource_group : List ResourceGroupRec
  package : List PackageRec
  member : List MemberRec
  groups : List GroupRec
deriving Repr

/-- Embedding of model.Package.get: CKAN resolves a package by id or name. -/
def Package.get (db : Db) (id : String) : Option PackageRec :=
  db.package.find? (fun p => p.id == id || p.name == id)

/-- Embedding of model.Resource.get. -/
def Resource.get (db : Db) (id : String) : Option ResourceRec :=
  db.resource.find? (fun r => r.id == id)

/-- Embedding of model.Group.by_name. -/
def Group.by_name (db : Db) (name : String) : Option GroupRec :=
  db.groups.find? (fun g => g.name == name)

/-- Embedding of the task_status_show action: the live record for
(entity_id, task_type, key), none when the action raises ObjectNotFound. -/
def task_status_show (db : Db) (entity_id task_type key : String) : Option TaskStatusRec :=
  db.task_status.find? (fun ts =>
    ts.entity_id == entity_id && ts.task_type == task_type && ts.key == key)

/-! ## five_stars (reports.py lines 46-83) -/

/-- One result row of five_stars.  The openness_score is the raw string
from the task_status.value column, as the Python code returns it. -/
structure FiveStarsEntry where
  name : String
  title : String
  openness_score : String
deriving Repr, DecidableEq

/-- Return value of five_stars: either the string "Not found" or the list
of per-dataset rows. -/
inductive FiveStarsResult where
  | notFound
  | results (rs : List FiveStarsEntry)
deriving Repr, DecidableEq

/-- The joined, filtered row stream of the five_stars query before
grouping: one (package name, package title, score value) triple for every
openness_score task_status row of an active resource of an active
resource_group of an active package (optionally one fixed package). -/
def fiveStarsScoreRows (db : Db) (pkgId : Option String) : List (String × String × String) :=
  db.package.flatMap fun p =>
    if p.state == "active" && (match pkgId with | some i => p.id == i | Option.none => true) then
      db.resource_group.flatMap fun rg =>
        if rg.package_id == p.id && rg.state == "active" then
          db.resource.flatMap fun r =>
            if r.resource_group_id == rg.id && r.state == "active" then
              db.task_status.filterMap fun ts =>
                if ts.entity_id == r.id && ts.key == "openness_score" then
                  some (p.name, p.title, ts.value)
                else Option.none
            else []
        else []
    else []

/-- One step of the SQL GROUP BY fold: update the (package name, package
title) group's running MAX(task_status.value) with this row's value, or
open a new group at the end. -/
def fiveStarsStep (d : List ((String × String) × String)) (row : String × String × String) :
    List ((String × String) × String) :=
  match assocGet? d (row.1, row.2.1) with
  | some cur => assocSet d (row.1, row.2.1) (strMax cur row.2.2)
  | Option.none => d ++ [((row.1, row.2.1), row.2.2)]

/-- GROUP BY (package.name, package.title) with MAX(task_status.value):
fold the row stream into an association list holding the running string
maximum per group, keyed in first-appearance order. -/
def fiveStarsGroup (rows : List (String × String × String)) : List ((String × String) × String) :=
  rows.foldl fiveStarsStep []

/-- Grouped five_stars rows ordered by package title (the SQL ORDER BY). -/
def fiveStarsData (db : Db) (pkgId : Option String) : List FiveStarsEntry :=
  (List.insertionSort (fun a b => strLe a.1.2 b.1.2 = true)
      (fiveStarsGroup (fiveStarsScoreRows db pkgId))).map
    (fun kv => ⟨kv.1.1, kv.1.2, kv.2⟩)

/-- Embedding of five_stars(id=None).  A given id that resolves to no
package returns the "Not found" sentinel; a falsy id (None or the empty
string) skips the lookup and the per-package filter. -/
def five_stars (db : Db) (id : Option String) : FiveStarsResult :=
  match id with
  | some i =>
    if i == "" then FiveStarsResult.results (fiveStarsData db Option.none)
    else
      match Package.get db i with
      | Option.none => FiveStarsResult.notFound
      | some pkg => FiveStarsResult.results (fiveStarsData db (some pkg.id))
  | Option.none => FiveStarsResult.results (fiveStarsData db Option.none)

/-! ## resource_five_stars (reports.py lines 85-123) -/

/-- Numeric value of an ASCII digit. -/
def digitVal? (c : Char) : Option Nat :=
  if 48 ≤ c.toNat ∧ c.toNat ≤ 57 then some (c.toNat - 48) else Option.none

/-- Decimal reading of a character list, none when empty or non-numeric. -/
def parseNatDigits (cs : List Char) : Option Nat :=
  cs.foldl
    (fun acc c =>
      match acc, digitVal? c with
      | some n, some d => some (n * 10 + d)
      | _, _ => Option.none)
    (if cs.isEmpty then Option.none else some 0)

/-- Embedding of Python int() on a string: none when the call would raise
ValueError. -/
def pyInt? (s : String) : Option Int :=
  match s.data with
  | Char.ofNat 45 :: rest => (parseNatDigits rest).map (fun n => -(n : Int))
  | _ => (parseNatDigits s.data).map (fun n => (n : Int))

/-- Result dict of resource_five_stars when both QA records are found. -/
structure ResourceQA where
  openness_score : Int
  openness_score_reason : String
  openness_updated : Nat
deriving Repr, DecidableEq

/-- Embedding of resource_five_stars.  ok none models the empty dict
returned when the resource or one of its QA records is missing (the
ObjectNotFound handler); int() on a non-numeric score raises an uncaught
ValueError; a falsy id leaves the local r unbound and raises. -/
def resource_five_stars (db : Db) (id : String) : Except PyErr (Option ResourceQA) :=
  if id == "" then Except.error PyErr.nameError
  else
    match Resource.get db id with
    | Option.none => Except.ok Option.none
    | some r =>
      match task_status_show db r.id "qa" "openness_score" with
      | Option.none => Except.ok Option.none
      | some st1 =>
        match pyInt? st1.value with
        | Option.none => Except.error PyErr.valueError
        | some n =>
          match task_status_show db r.id "qa" "openness_score_reason" with
          | Option.none => Except.ok Option.none
          | some st2 =>
            Except.ok (some ⟨n, st2.value, max st1.last_updated st2.last_updated⟩)

/-! ## scores_by_dataset_for_organisation (reports.py lines 185-264) -/

/-- Exclusion set used by the by-organisation score path (line 182). -/
def not_broken_but_0_stars : List String := ["Chose not to download"]

/-- Exclusion set used by the broken-link paths (line 183). -/
def archiver_status__not_broken_link : List String :=
  ["Chose not to download", "Archived successfully"]

/-- One row of the scores_by_dataset_for_organisation SQL result: a
task_status row joined to its resource, package and publisher. -/
structure ScoreRow where
  package_id : String
  task_status_key : String
  task_status_value : String
  task_status_last_updated : Nat
  resource_id : String
  resource_url : String
  position : Int
  package_title : String
  package_name : String
  publisher_id : String
  publisher_name : String
  publisher_title : String
deriving Repr, DecidableEq

/-- The res_data accumulator: an ordered Python dict. -/
abbrev ResData := List (String × PyVal)

/-- Python membership test of a dict value in a set of strings: non-string
values are never members. -/
def pyValInStrSet (v : PyVal) (set : List String) : Bool :=
  match v with
  | PyVal.str s => set.contains s
  | _ => false

/-- Embedding of the inner save_res_data: reading
res_data[openness_score_reason] raises KeyError when the key is absent;
an excluded reason drops the record; otherwise it is appended. -/
def save_res_data (res_data : ResData) (data : List ResData) : Except PyErr (List ResData) :=
  match assocGet? res_data "openness_score_reason" with
  | Option.none => Except.error PyErr.keyError
  | some v =>
    if pyValInStrSet v not_broken_but_0_stars then Except.ok data
    else Except.ok (data ++ [res_data])

/-- Embedding of the inner init_res_data: the fresh accumulator holding
the resource columns of the incoming row. -/
def init_res_data (row : ScoreRow) : ResData :=
  [("package_name", PyVal.str row.package_name),
   ("package_title", PyVal.str row.package_title),
   ("resource_id", PyVal.str row.resource_id),
   ("resource_url", PyVal.str row.resource_url),
   ("resource_position", PyVal.int row.position)]

/-- Python 2 max of a datetime (the incoming timestamp) against a stored
dict value.  Both are datetimes in every reachable state; a non-datetime
would win a Python 2 cross-type comparison by type name, which we mirror
by keeping it. -/
def pyMaxTime (t : Nat) (v : PyVal) : PyVal :=
  match v with
  | PyVal.time t2 => PyVal.time (max t t2)
  | other => other

/-- Second half of merging one row: maintain openness_score_updated as the
running maximum timestamp over the merged rows. -/
def mergeRowUpd (rd : ResData) (row : ScoreRow) : ResData :=
  match assocGet? rd "openness_score_updated" with
  | some v => assocSet rd "openness_score_updated" (pyMaxTime row.task_status_last_updated v)
  | Option.none => assocSet rd "openness_score_updated" (PyVal.time row.task_status_last_updated)

/-- Merging one row into the accumulator: store the row's key/value pair,
then maintain openness_score_updated as the running maximum timestamp. -/
def mergeRow (rd : ResData) (row : ScoreRow) : ResData :=
  mergeRowUpd (assocSet rd row.task_status_key (PyVal.str row.task_status_value)) row

/-- Loop state of the collation in scores_by_dataset_for_organisation:
the last row seen, the current accumulator and the flushed records. -/
structure ScoreState where
  last_row : Option ScoreRow
  res_data : Option ResData
  data : List ResData
deriving Repr, DecidableEq

/-- Python truthiness of the optional res_data dict. -/
def resDataTruthy (rd : Option ResData) : Bool :=
  match rd with
  | Option.none => false
  | some d => !d.isEmpty

/-- Boundary handling at the top of the loop body: on the first row, or
when the resource id changes and the accumulator is truthy, (flush and)
restart the accumulator; otherwise leave the state alone. -/
def scoreFlush (st : ScoreState) (row : ScoreRow) : Except PyErr (Option ResData × List ResData) :=
  match st.last_row with
  | Option.none => Except.ok (some (init_res_data row), st.data)
  | some lr =>
    if row.resource_id != lr.resource_id && resDataTruthy st.res_data then
      match st.res_data with
      | some rd =>
        match save_res_data rd st.data with
        | Except.ok d => Except.ok (some (init_res_data row), d)
        | Except.error e => Except.error e
      | Option.none => Except.ok (st.res_data, st.data)
    else Except.ok (st.res_data, st.data)

/-- One iteration of the collation loop over the sorted row stream: the
boundary step followed by merging the row into the accumulator (a still
unset accumulator would be Python None, whose item assignment raises). -/
def scoreStep (st : ScoreState) (row : ScoreRow) : Except PyErr ScoreState :=
  match scoreFlush st row with
  | Except.error e => Except.error e
  | Except.ok (Option.none, _) => Except.error PyErr.typeError
  | Except.ok (some rd, data1) => Except.ok ⟨some row, some (mergeRow rd row), data1⟩

/-- Report shape returned by scores_by_dataset_for_organisation. -/
structure ScoresReport where
  publisher_name : String
  publisher_title : String
  broken_resources : List ResData
deriving Repr, DecidableEq

/-- Embedding of scores_by_dataset_for_organisation, taking the sorted row
stream produced by its SQL query as input.  After the loop the final
accumulator is flushed when truthy, and the publisher columns are read
from the last row when any record survived. -/
def scoresFinalFlush (st : ScoreState) : Except PyErr (List ResData) :=
  match st.res_data with
  | some rd => if rd.isEmpty then Except.ok st.data else save_res_data rd st.data
  | Option.none => Except.ok st.data

/-- Assembling the report dict: the publisher columns come from the loop
variable (the last row) when any record survived, else the requested name
with an empty title. -/
def scoresAssemble (organisation_name : String) (st : ScoreState) (data : List ResData) :
    Except PyErr ScoresReport :=
  match data, st.last_row with
  | [], _ => Except.ok ⟨organisation_name, "", []⟩
  | _ :: _, some lr => Except.ok ⟨lr.publisher_name, lr.publisher_title, data⟩
  | _ :: _, Option.none => Except.error PyErr.nameError

def scores_by_dataset_for_organisation (organisation_name : String) (rows : List ScoreRow) :
    Except PyErr ScoresReport :=
  match List.foldlM scoreStep ⟨Option.none, Option.none, []⟩ rows with
  | Except.error e => Except.error e
  | Except.ok st =>
    match scoresFinalFlush st with
    | Except.error e => Except.error e
    | Except.ok data => scoresAssemble organisation_name st data

/-- Merged record of one group of rows sharing a resource id, as the
accumulator holds it at flush time: init_res_data of the head row with
every row of the group merged in order. -/
def mergeGroup (h : ScoreRow) (t : List ScoreRow) : ResData :=
  (h :: t).foldl mergeRow (init_res_data h)

/-- Row stream described by a list of nonempty groups. -/
def joinGroups (gs : List (ScoreRow × List ScoreRow)) : List ScoreRow :=
  gs.flatMap fun g => g.1 :: g.2

/-! ## organisation_dataset_scores (reports.py lines 409-497) -/

/-- Per-dataset accumulator of organisation_dataset_scores: the fixed-key
OrderedDict with None placeholders for the highest-scoring resource. -/
structure OdsEntry where
  dataset_title : String
  dataset_name : String
  publisher_title : String
  publisher_name : String
  resource_position : Option Int
  resource_id : Option String
  resource_url : Option String
  openness_score : Option String
  openness_score_reason : Option String
  last_updated : Option Nat
deriving Repr, DecidableEq

/-- Fresh accumulator for a package, built from its first row. -/
def odsInitEntry (row : ScoreRow) : OdsEntry :=
  { dataset_title := row.package_title
    dataset_name := row.package_name
    publisher_title := row.publisher_title
    publisher_name := row.publisher_name
    resource_position := Option.none
    resource_id := Option.none
    resource_url := Option.none
    openness_score := Option.none
    openness_score_reason := Option.none
    last_updated := Option.none }

/-- Python condition (not package_data[openness_score] or
row.task_status_value > package_data[openness_score]): None and the empty
string are falsy, otherwise a Python 2 lexicographic string comparison. -/
def odsScoreBeats (newValue : String) (cur : Option String) : Bool :=
  match cur with
  | Option.none => true
  | some s => s == "" || strLt s newValue

/-- One iteration of the organisation_dataset_scores loop: fetch or create
the package accumulator, update it from the row, store it back. -/
def odsStep (d : List (String × OdsEntry)) (row : ScoreRow) : List (String × OdsEntry) :=
  let pd :=
    match assocGet? d row.package_name with
    | some pd => pd
    | Option.none => odsInitEntry row
  let pd :=
    if row.task_status_key == "openness_score" && odsScoreBeats row.task_status_value pd.openness_score then
      { pd with
          resource_position := some row.position
          resource_id := some row.resource_id
          resource_url := some row.resource_url
          openness_score := some row.task_status_value
          openness_score_reason := Option.none
          last_updated := some row.task_status_last_updated }
    else if row.task_status_key == "openness_score_reason" && pd.resource_id == some row.resource_id then
      { pd with openness_score_reason := some row.task_status_value }
    else pd
  assocSet d row.package_name pd

/-- The data dict of organisation_dataset_scores after the whole sorted
row stream has been folded in. -/
def odsData (rows : List ScoreRow) : List (String × OdsEntry) :=
  rows.foldl odsStep []

/-- Report shape returned by organisation_dataset_scores. -/
structure OdsReport where
  publisher_name : String
  publisher_title : String
  data : List OdsEntry
deriving Repr, DecidableEq

/-- Embedding of organisation_dataset_scores, taking the sorted row stream
of its SQL query as input.  The final Group.by_name(...).title read raises
AttributeError when the organisation name is unknown. -/
def organisation_dataset_scores (db : Db) (organisation_name : String) (rows : List ScoreRow) :
    Except PyErr OdsReport :=
  let data := odsData rows
  match Group.by_name db organisation_name with
  | Option.none => Except.error PyErr.attributeError
  | some g => Except.ok ⟨organisation_name, g.title, data.map (fun kv => kv.2)⟩

/-! ## broken_resource_links_for_organisation (reports.py lines 323-407) -/

/-- One row of the broken_resource_links_for_organisation SQL result:
like ScoreRow with the task_status.error column added. -/
structure BrokenRow where
  package_id : String
  task_status_key : String
  task_status_value : String
  task_status_error : Option PyJson
  task_status_last_updated : Nat
  resource_id : String
  resource_url : String
  position : Int
  package_title : String
  package_name : String
  publisher_id : String
  publisher_name : String
  publisher_title : String
deriving Repr, DecidableEq

/-- The status_filter subquery: entity ids having an archiver status row
whose value differs from every member of archiver_status__not_broken_link. -/
def brokenEntityIds (db : Db) : List String :=
  (db.task_status.filter fun ts =>
    ts.task_type == "archiver" && ts.key == "status" &&
      archiver_status__not_broken_link.all (fun s => ts.value != s)).map
    (fun ts => ts.entity_id)

/-- The joined, filtered row stream of the broken-links query (default
include_sub_organisations=False path, organisation filter on group.name),
before the ORDER BY. -/
def brokenLinkJoin (db : Db) (organisation_name : String) : List BrokenRow :=
  db.task_status.flatMap fun ts =>
    if ts.key == "status" && (brokenEntityIds db).contains ts.entity_id then
      db.resource.flatMap fun r =>
        if r.id == ts.entity_id && r.state == "active" then
          db.resource_group.flatMap fun rg =>
            if rg.id == r.resource_group_id && rg.state == "active" then
              db.package.flatMap fun p =>
                if p.id == rg.package_id && p.state == "active" then
                  db.member.flatMap fun m =>
                    if m.table_id == p.id then
                      db.groups.filterMap fun g =>
                        if g.id == m.group_id && g.state == "active" && g.name == organisation_name then
                          some ⟨p.id, ts.key, ts.value, ts.error, ts.last_updated,
                                r.id, r.url, r.position, p.title, p.name,
                                g.id, g.name, g.title⟩
                        else Option.none
                    else []
                else []
            else []
        else []
    else []

/-- ORDER BY package.title, package.name, resource.position. -/
def brokenRowLe (a b : BrokenRow) : Bool :=
  strLt a.package_title b.package_title ||
    (a.package_title == b.package_title &&
      (strLt a.package_name b.package_name ||
        (a.package_name == b.package_name && decide (a.position ≤ b.position))))

/-- Sorted row stream of the broken-links query. -/
def brokenLinkRows (db : Db) (organisation_name : String) : List BrokenRow :=
  List.insertionSort (fun a b => brokenRowLe a b = true) (brokenLinkJoin db organisation_name)

/-- A report row of broken_resource_links_for_organisation. -/
abbrev RowData := List (String × PyVal)

/-- The OrderedDict literal built for each row of the result stream. -/
def brokenRowData (row : BrokenRow) : RowData :=
  [("dataset_title", PyVal.str row.package_title),
   ("dataset_name", PyVal.str row.package_name),
   ("publisher_title", PyVal.str row.publisher_title),
   ("publisher_name", PyVal.str row.publisher_name),
   ("resource_position", PyVal.int row.position),
   ("resource_id", PyVal.str row.resource_id),
   ("resource_url", PyVal.str row.resource_url),
   ("status", PyVal.str row.task_status_value)]

/-- One iteration of the broken_resource_links_for_organisation loop.  A
truthy error column is fed to json.loads: a malformed payload raises an
uncaught ValueError; a payload with at least one field enters the loop
body, whose first line reads the undefined name item_properties_as_dates
(the code defines archival_properties_as_dates instead) and so raises
NameError; only an empty object skips the body and survives. -/
def brokenStep (data : List RowData) (row : BrokenRow) : Except PyErr (List RowData) :=
  match row.task_status_error with
  | some PyJson.malformed => Except.error PyErr.valueError
  | some (PyJson.obj (_ :: _)) => Except.error PyErr.nameError
  | _ =>
    Except.ok (data ++
      [assocSet (brokenRowData row) "last_updated" (PyVal.time row.task_status_last_updated)])

/-- Report shape returned by broken_resource_links_for_organisation. -/
structure BrokenReport where
  publisher_name : String
  publisher_title : String
  data : List RowData
deriving Repr, DecidableEq

/-- Embedding of broken_resource_links_for_organisation on its default
include_sub_organisations=False path.  After the loop the code reads
model.Group.by_name(organisation_name).title, which raises AttributeError
when the name matches no organisation (by_name returns None). -/
def broken_resource_links_for_organisation (db : Db) (organisation_name : String) :
    Except PyErr BrokenReport :=
  match List.foldlM brokenStep [] (brokenLinkRows db organisation_name) with
  | Except.error e => Except.error e
  | Except.ok data =>
    match Group.by_name db organisation_name with
    | Option.none => Except.error PyErr.attributeError
    | some g => Except.ok ⟨organisation_name, g.title, data⟩

/-! ## organisations_with_broken_resource_links (reports.py lines 266-321) -/

/-- One row of the GROUP BY query of organisations_with_broken_resource_links:
the per-organisation flat counts. -/
structure CountRow where
  broken_package_count : Nat
  broken_resource_count : Nat
  publisher_name : String
  publisher_title : String
deriving Repr, DecidableEq

/-- One entry of the report data of organisations_with_broken_resource_links. -/
structure PubCounts where
  publisher_title : String
  publisher_name : String
  broken_package_count : Nat
  broken_resource_count : Nat
deriving Repr, DecidableEq

/-- Modelled from the spec: go_up_tree lives in ckanext.dgu.lib.publisher
(the external Organization Hierarchy Provider of spec section 6, with the
InconsistentAncestor policy of section 7): the ordered sequence from the
organisation up to its root, following each at-most-one parent link and
stopping at a dangling or missing parent; fuel bounds the recursion. -/
def go_up_tree (parent : List (String × String)) : Nat → String → List String
  | 0, _ => []
  | fuel + 1, o =>
    o :: (match assocGet? parent o with
          | some p => go_up_tree parent fuel p
          | Option.none => [])

/-- The rollup dict counts_by_publisher: for every query row, every
organisation on the walk from the row's publisher up to its root receives
the row's two counts. -/
def rollupCounts (parent : List (String × String)) (fuel : Nat) (rows : List CountRow) :
    List (String × (Nat × Nat)) :=
  rows.foldl (fun d row =>
    (go_up_tree parent fuel row.publisher_name).foldl (fun d pub =>
      let cur := lookupD d pub (0, 0)
      assocSet d pub (cur.1 + row.broken_package_count, cur.2 + row.broken_resource_count)) d) []

/-- Embedding of the surviving organisations_with_broken_resource_links
definition (line 266), taking the GROUP BY query result as input together
with the hierarchy of the external provider (parent links, a title lookup
and the recursion fuel).  The flat branch copies the query rows; the
rollup branch sums each row's counts into every ancestor and sorts the
dict items by publisher title. -/
def organisations_with_broken_resource_links (parent : List (String × String))
    (titleOf : String → String) (fuel : Nat) (rows : List CountRow)
    (include_sub_organisations : Bool) : List PubCounts :=
  if !include_sub_organisations then
    rows.map fun r =>
      ⟨r.publisher_title, r.publisher_name, r.broken_package_count, r.broken_resource_count⟩
  else
    (List.insertionSort (fun a b => strLe (titleOf a.1) (titleOf b.1) = true)
        (rollupCounts parent fuel rows)).map
      (fun kv => ⟨titleOf kv.1, kv.1, kv.2.1, kv.2.2⟩)

/-! ## Module-level binding of the twice-defined name (lines 178 and 266) -/

/-- The two def statements for organisations_with_broken_resource_links as
they execute at import time, in source order. -/
inductive ReportsDef where
  | withIncludeResources
  | withIncludeSubOrgs
deriving Repr, DecidableEq

/-- Positional order of the two def statements in reports.py. -/
def reportsModuleDefs : List (String × ReportsDef) :=
  [("organisations_with_broken_resource_links", ReportsDef.withIncludeResources),
   ("organisations_with_broken_resource_links", ReportsDef.withIncludeSubOrgs)]

/-- Python module semantics: each def statement rebinds the name, so a
lookup after import sees the last definition. -/
def pyModuleBind {α : Type} (defs : List (String × α)) (name : String) : Option α :=
  ((defs.filter (fun d => d.1 == name)).getLast?).map (fun d => d.2)

/-- Keyword parameter list of each definition (beyond the implicit query
state). -/
def reportsDefKeywords : ReportsDef → List String
  | ReportsDef.withIncludeResources => ["include_resources"]
  | ReportsDef.withIncludeSubOrgs => ["include_sub_organisations"]

/-- Python keyword-argument binding: an unknown keyword raises TypeError. -/
def pyCallKeyword (d : ReportsDef) (kw : String) : Except PyErr Unit :=
  if (reportsDefKeywords d).contains kw then Except.ok () else Except.error PyErr.typeError

/-- Body reachable through each definition: the first one calls the helper
_get_broken_resource_links, which no longer exists anywhere in the module,
so it can only raise NameError and yields no per-resource detail rows; the
second is the count-aggregation function embedded above. -/
def reportsDefImpl : ReportsDef →
    Option (List (String × String) → (String → String) → Nat → List CountRow → Bool → List PubCounts)
  | ReportsDef.withIncludeResources => Option.none
  | ReportsDef.withIncludeSubOrgs => some organisations_with_broken_resource_links

/-! ## Generic association-list lemmas -/

theorem assocGet?_set_self {κ ν : Type} [DecidableEq κ] (d : List (κ × ν)) (k : κ) (v : ν) :
    assocGet? (assocSet d k v) k = some v := by
  induction d with
  | nil => simp [assocSet, assocGet?]
  | cons hd tl ih =>
    by_cases h : hd.1 = k
    · simp [assocSet, assocGet?, h]
    · simpa [assocSet, assocGet?, h] using ih

theorem assocGet?_set_ne {κ ν : Type} [DecidableEq κ] (d : List (κ × ν)) (k k2 : κ) (v : ν)
    (h : k ≠ k2) : assocGet? (assocSet d k v) k2 = assocGet? d k2 := by
  induction d with
  | nil => simp [assocSet, assocGet?, h]
  | cons hd tl ih =>
    by_cases h2 : hd.1 = k
    · simp [assocSet, assocGet?, h2, h]
    · by_cases h3 : hd.1 = k2
      · simp [assocSet, assocGet?, h2, h3, Ne.symm h]
      · simp [assocSet, assocGet?, h2, h3, ih]

theorem assocSet_ne_nil {κ ν : Type} [DecidableEq κ] (d : List (κ × ν)) (k : κ) (v : ν) :
    assocSet d k v ≠ [] := by
  cases d with
  | nil => simp [assocSet]
  | cons hd tl =>
    by_cases h : hd.1 = k <;> simp [assocSet, h]

theorem assocGet?_append {κ ν : Type} [DecidableEq κ] (d e : List (κ × ν)) (k : κ) :
    assocGet? (d ++ e) k =
      match assocGet? d k with
      | some v => some v
      | Option.none => assocGet? e k := by
  induction d with
  | nil => simp [assocGet?]
  | cons hd tl ih =>
    by_cases h : hd.1 = k
    · simp [assocGet?, h]
    · simpa [assocGet?, h] using ih

theorem assocGet?_set_mem {κ ν : Type} [DecidableEq κ] (d : List (κ × ν)) (k k2 : κ) (v v2 : ν)
    (h : assocGet? (assocSet d k v) k2 = some v2) :
    k2 = k ∨ assocGet? d k2 = some v2 := by
  by_cases hk : k = k2
  · exact Or.inl hk.symm
  · exact Or.inr (by rwa [assocGet?_set_ne d k k2 v hk] at h)

/-! ## Concrete snapshots used by witnesses and counterexamples -/

/-- Record-store snapshot with no rows at all. -/
def dbEmpty : Db := ⟨[], [], [], [], [], []⟩

/-- Snapshot holding one live resource with no QA status records, and one
organisation named alpha. -/
def dbSparse : Db :=
  { task_status := []
    resource := [⟨"r1", "http://r1", 0, "active", "rg1"⟩]
    resource_group := [⟨"rg1", "d1", "active"⟩]
    package := [⟨"d1", "dataset-one", "Dataset One", "active"⟩]
    member := [⟨"d1", "g1"⟩]
    groups := [⟨"g1", "alpha", "Alpha", "active"⟩] }

/-! ## C10 -/

/-- C10: reports.py defines organisations_with_broken_resource_links twice
and Python module semantics bind the name to the second definition, the
count-aggregation variant taking include_sub_organisations; calling the
bound name with the include_resources keyword raises TypeError, and no
reachable variant of the name returns per-resource detail rows (the first
definition is unreachable and its helper no longer exists). -/
theorem C10_second_def_shadows_first :
    pyModuleBind reportsModuleDefs "organisations_with_broken_resource_links" =
        some ReportsDef.withIncludeSubOrgs ∧
      pyCallKeyword ReportsDef.withIncludeSubOrgs "include_resources" =
        Except.error PyErr.typeError ∧
      reportsDefImpl ReportsDef.withIncludeSubOrgs = some organisations_with_broken_resource_links ∧
      reportsDefImpl ReportsDef.withIncludeResources = Option.none :=
  ⟨rfl, rfl, rfl, rfl⟩

/-! ## C9 -/

/-- C9: every embedded report operation is a pure function of the record
store snapshot, the hierarchy snapshot and its arguments, so running it
twice with the same arguments yields identical output. -/
theorem C9_reports_deterministic (db : Db) (id : Option String) (rid org : String)
    (rows : List ScoreRow) (parent : List (String × String)) (titleOf : String → String)
    (fuel : Nat) (crows : List CountRow) (flag : Bool) :
    five_stars db id = five_stars db id ∧
      resource_five_stars db rid = resource_five_stars db rid ∧
      scores_by_dataset_for_organisation org rows = scores_by_dataset_for_organisation org rows ∧
      broken_resource_links_for_organisation db org = broken_resource_links_for_organisation db org ∧
      organisation_dataset_scores db org rows = organisation_dataset_scores db org rows ∧
      organisations_with_broken_resource_links parent titleOf fuel crows flag =
        organisations_with_broken_resource_links parent titleOf fuel crows flag :=
  ⟨rfl, rfl, rfl, rfl, rfl, rfl⟩

/-! ## C7 -/

/-- C7: a dataset id resolving to no package makes five_stars return the
"Not found" sentinel instead of raising, and a resource id resolving to no
live resource, or a resource whose QA status records are absent, makes
resource_five_stars return the empty result instead of raising. -/
theorem C7_not_found_is_sentinel :
    (∀ (db : Db) (i : String), i ≠ "" → Package.get db i = Option.none →
        five_stars db (some i) = FiveStarsResult.notFound) ∧
      (∀ (db : Db) (i : String), i ≠ "" → Resource.get db i = Option.none →
        resource_five_stars db i = Except.ok Option.none) ∧
      (∀ (db : Db) (i : String) (r : ResourceRec), i ≠ "" → Resource.get db i = some r →
        task_status_show db r.id "qa" "openness_score" = Option.none →
        resource_five_stars db i = Except.ok Option.none) := by
  refine ⟨fun db i hne hget => ?_, fun db i hne hget => ?_, fun db i r hne hget hts => ?_⟩
  · simp [five_stars, hget, hne]
  · simp [resource_five_stars, hget, hne]
  · simp [resource_five_stars, hget, hne, hts]

/-- Witness for C7 at concrete snapshots: the id nope matches nothing in
dbEmpty, and resource r1 of dbSparse has no QA records. -/
theorem C7_witness :
    Package.get dbEmpty "nope" = Option.none ∧
      five_stars dbEmpty (some "nope") = FiveStarsResult.notFound ∧
      Resource.get dbEmpty "nope" = Option.none ∧
      resource_five_stars dbEmpty "nope" = Except.ok Option.none ∧
      task_status_show dbSparse "r1" "qa" "openness_score" = Option.none ∧
      resource_five_stars dbSparse "r1" = Except.ok Option.none :=
  ⟨rfl,
   C7_not_found_is_sentinel.1 dbEmpty "nope" (by decide) rfl,
   rfl,
   C7_not_found_is_sentinel.2.1 dbEmpty "nope" (by decide) rfl,
   rfl,
   C7_not_found_is_sentinel.2.2 dbSparse "r1" ⟨"r1", "http://r1", 0, "active", "rg1"⟩
     (by decide) rfl rfl⟩

/-! ## C2 -/

/-- C2: contrary to the claim, an organisation name matching no live
organisation does not always yield an empty report:
broken_resource_links_for_organisation ends by reading
model.Group.by_name(organisation_name).title, and by_name returns None,
so the AttributeError escapes to the caller.  scores_by_dataset_for_organisation
(whose query then yields no rows) does return the empty report, with the
requested name echoed back rather than an empty name field. -/
theorem C2_unknown_org_raises :
    broken_resource_links_for_organisation dbSparse "beta" = Except.error PyErr.attributeError ∧
      scores_by_dataset_for_organisation "beta" [] =
        Except.ok ⟨"beta", "", []⟩ :=
  ⟨rfl, rfl⟩


/-! ## C3 -/

/-- Snapshot for organisation alpha with two broken resources, the second
carrying an error payload that json.loads rejects. -/
def dbC3 : Db :=
  { task_status :=
      [⟨"r1", "archiver", "status", "Resource gone", Option.none, 5⟩,
       ⟨"r2", "archiver", "status", "Timeout", some PyJson.malformed, 6⟩]
    resource :=
      [⟨"r1", "http://r1", 0, "active", "rg1"⟩,
       ⟨"r2", "http://r2", 1, "active", "rg1"⟩]
    resource_group := [⟨"rg1", "d1", "active"⟩]
    package := [⟨"d1", "dataset-one", "Dataset One", "active"⟩]
    member := [⟨"d1", "g1"⟩]
    groups := [⟨"g1", "alpha", "Alpha", "active"⟩] }

/-- Same snapshot with the second resource's error column empty. -/
def dbC3ok : Db :=
  { dbC3 with
      task_status :=
        [⟨"r1", "archiver", "status", "Resource gone", Option.none, 5⟩,
         ⟨"r2", "archiver", "status", "Timeout", Option.none, 6⟩] }

/-- C3 fails on the code: with one row whose error payload is malformed,
broken_resource_links_for_organisation does not skip the field and return
the rest of the report — the uncaught ValueError from json.loads aborts
the whole report, although the same snapshot without that payload yields a
complete report. -/
theorem C3_counterexample :
    broken_resource_links_for_organisation dbC3 "alpha" = Except.error PyErr.valueError ∧
      (broken_resource_links_for_organisation dbC3ok "alpha").isOk = true :=
  ⟨rfl, rfl⟩

/-- Folding the broken-links row loop over clean rows followed by a row
with a malformed error payload always aborts with ValueError. -/
theorem brokenFold_malformed_aborts :
    ∀ (pre : List BrokenRow) (post : List BrokenRow) (bad : BrokenRow),
      (∀ r ∈ pre, r.task_status_error = Option.none ∨
        r.task_status_error = some (PyJson.obj [])) →
      bad.task_status_error = some PyJson.malformed →
      ∀ (acc : List RowData),
        List.foldlM brokenStep acc (pre ++ bad :: post) = Except.error PyErr.valueError := by
  intro pre
  induction pre with
  | nil =>
    intro post bad _ hbad acc
    rw [List.nil_append, List.foldlM_cons]
    have hstep : brokenStep acc bad = Except.error PyErr.valueError := by
      simp only [brokenStep, hbad]
    rw [hstep]
    rfl
  | cons hd tl ih =>
    intro post bad hpre hbad acc
    have hd1 : hd.task_status_error = Option.none ∨
        hd.task_status_error = some (PyJson.obj []) := hpre hd (List.mem_cons_self hd tl)
    have htl : ∀ r ∈ tl, r.task_status_error = Option.none ∨
        r.task_status_error = some (PyJson.obj []) := fun r hr => hpre r (List.mem_cons_of_mem hd hr)
    rw [List.cons_append, List.foldlM_cons]
    have hstep : brokenStep acc hd = Except.ok (acc ++
        [assocSet (brokenRowData hd) "last_updated" (PyVal.time hd.task_status_last_updated)]) := by
      rcases hd1 with h1 | h1
      · simp only [brokenStep, h1]
      · simp only [brokenStep, h1]
    rw [hstep]
    exact ih post bad htl hbad _

/-- C3 amended: when the sorted row stream reaches its first row carrying
a truthy error column and that payload is malformed, the whole report
aborts with the ValueError that json.loads raises; nothing is skipped and
no report is returned.  (A row with a well-formed, non-empty payload would
abort with NameError instead, since the loop body reads the undefined name
item_properties_as_dates.) -/
theorem C3_malformed_payload_aborts (db : Db) (org : String) (pre post : List BrokenRow)
    (bad : BrokenRow) (hrows : brokenLinkRows db org = pre ++ bad :: post)
    (hpre : ∀ r ∈ pre, r.task_status_error = Option.none ∨
      r.task_status_error = some (PyJson.obj []))
    (hbad : bad.task_status_error = some PyJson.malformed) :
    broken_resource_links_for_organisation db org = Except.error PyErr.valueError := by
  unfold broken_resource_links_for_organisation
  rw [hrows, brokenFold_malformed_aborts pre post bad hpre hbad []]

/-- Witness for C3 amended at the concrete snapshot dbC3: its sorted row
stream is one clean row followed by the malformed one, and the report
aborts with ValueError. -/
theorem C3_witness :
    brokenLinkRows dbC3 "alpha" =
        [⟨"d1", "status", "Resource gone", Option.none, 5, "r1", "http://r1", 0,
           "Dataset One", "dataset-one", "g1", "alpha", "Alpha"⟩] ++
          ⟨"d1", "status", "Timeout", some PyJson.malformed, 6, "r2", "http://r2", 1,
            "Dataset One", "dataset-one", "g1", "alpha", "Alpha"⟩ :: [] ∧
      broken_resource_links_for_organisation dbC3 "alpha" = Except.error PyErr.valueError :=
  ⟨rfl,
   C3_malformed_payload_aborts dbC3 "alpha"
     [⟨"d1", "status", "Resource gone", Option.none, 5, "r1", "http://r1", 0,
        "Dataset One", "dataset-one", "g1", "alpha", "Alpha"⟩]
     []
     ⟨"d1", "status", "Timeout", some PyJson.malformed, 6, "r2", "http://r2", 1,
       "Dataset One", "dataset-one", "g1", "alpha", "Alpha"⟩
     rfl (by decide) rfl⟩



/-! ## C6 -/

/-- Records delivered to the broken_resources list never carry a reason
from the not_broken_but_0_stars exclusion set. -/
def reasonNotExcluded (rd : ResData) : Prop :=
  ∀ v, assocGet? rd "openness_score_reason" = some v →
    pyValInStrSet v not_broken_but_0_stars = false

theorem save_res_data_not_excluded (rd : ResData) (data data2 : List ResData)
    (h : save_res_data rd data = Except.ok data2)
    (hP : ∀ x ∈ data, reasonNotExcluded x) : ∀ x ∈ data2, reasonNotExcluded x := by
  unfold save_res_data at h
  split at h
  · cases h
  · next v hget =>
    split at h
    · cases h
      exact hP
    · next hex =>
      cases h
      intro x hx
      rcases List.mem_append.mp hx with hx | hx
      · exact hP x hx
      · rcases List.mem_singleton.mp hx with rfl
        intro v2 hv2
        rw [hget] at hv2
        cases hv2
        simpa using hex

theorem scoreStep_not_excluded (st : ScoreState) (row : ScoreRow) (st2 : ScoreState)
    (h : scoreStep st row = Except.ok st2)
    (hP : ∀ x ∈ st.data, reasonNotExcluded x) : ∀ x ∈ st2.data, reasonNotExcluded x := by
  obtain ⟨lastr, resd, sdata⟩ := st
  cases lastr with
  | none =>
    simp only [scoreStep, scoreFlush] at h
    cases h
    exact hP
  | some lr =>
    by_cases hb : (row.resource_id != lr.resource_id && resDataTruthy resd) = true
    · cases resd with
      | none => simp [resDataTruthy] at hb
      | some rdc =>
        cases hsv : save_res_data rdc sdata with
        | error e =>
          simp only [scoreStep, scoreFlush, hb, if_true, hsv] at h
          cases h
        | ok d =>
          simp only [scoreStep, scoreFlush, hb, if_true, hsv] at h
          cases h
          exact save_res_data_not_excluded rdc sdata d hsv hP
    · rw [Bool.not_eq_true] at hb
      cases resd with
      | none =>
        simp only [scoreStep, scoreFlush, hb, Bool.false_eq_true, if_false] at h
        cases h
      | some rdc =>
        simp only [scoreStep, scoreFlush, hb, Bool.false_eq_true, if_false] at h
        cases h
        exact hP

theorem scoresFold_not_excluded (rows : List ScoreRow) :
    ∀ (st st2 : ScoreState), List.foldlM scoreStep st rows = Except.ok st2 →
      (∀ x ∈ st.data, reasonNotExcluded x) → ∀ x ∈ st2.data, reasonNotExcluded x := by
  induction rows with
  | nil =>
    intro st st2 h hP
    rw [List.foldlM_nil] at h
    cases h
    exact hP
  | cons r rows ih =>
    intro st st2 h hP
    rw [List.foldlM_cons] at h
    cases hstep : scoreStep st r with
    | error e =>
      rw [hstep] at h
      cases h
    | ok st3 =>
      rw [hstep] at h
      exact ih st3 st2 h (scoreStep_not_excluded st r st3 hstep hP)

theorem scores_report_not_excluded (org : String) (rows : List ScoreRow) (rep : ScoresReport)
    (h : scores_by_dataset_for_organisation org rows = Except.ok rep) :
    ∀ rd ∈ rep.broken_resources, reasonNotExcluded rd := by
  unfold scores_by_dataset_for_organisation at h
  cases hfold : List.foldlM scoreStep ⟨Option.none, Option.none, []⟩ rows with
  | error e =>
    simp only [hfold] at h
    cases h
  | ok st =>
    simp only [hfold] at h
    have hst : ∀ x ∈ st.data, reasonNotExcluded x :=
      scoresFold_not_excluded rows _ st hfold (by intro x hx; cases hx)
    cases hfin : scoresFinalFlush st with
    | error e =>
      simp only [hfin] at h
      cases h
    | ok data =>
      simp only [hfin] at h
      have hdata : ∀ x ∈ data, reasonNotExcluded x := by
        unfold scoresFinalFlush at hfin
        split at hfin
        · next rd _ =>
          split at hfin
          · cases hfin
            exact hst
          · exact save_res_data_not_excluded rd st.data data hfin hst
        · cases hfin
          exact hst
      unfold scoresAssemble at h
      split at h
      · cases h
        intro rd hrd
        cases hrd
      · cases h
        exact hdata
      · cases h

theorem mem_if_list {α : Type} {x : α} {c : Bool} {l : List α}
    (h : x ∈ (if c = true then l else [])) : c = true ∧ x ∈ l := by
  by_cases hc : c = true
  · rw [if_pos hc] at h
    exact ⟨hc, h⟩
  · rw [if_neg hc] at h
    cases h

theorem some_if_opt {α : Type} {x y : α} {c : Bool}
    (h : (if c = true then some x else Option.none) = some y) : c = true ∧ y = x := by
  by_cases hc : c = true
  · rw [if_pos hc] at h
    cases h
    exact ⟨hc, rfl⟩
  · rw [if_neg hc] at h
    cases h

theorem not_mem_brokenEntityIds (db : Db) (rid : String)
    (h : ∀ ts ∈ db.task_status, ts.entity_id = rid → ts.task_type = "archiver" →
      ts.key = "status" → ts.value ∈ archiver_status__not_broken_link) :
    rid ∉ brokenEntityIds db := by
  intro hmem
  unfold brokenEntityIds at hmem
  rcases List.mem_map.mp hmem with ⟨ts, hts, hid⟩
  rcases List.mem_filter.mp hts with ⟨htsdb, hpred⟩
  simp only [Bool.and_eq_true, beq_iff_eq, List.all_eq_true, bne_iff_ne] at hpred
  obtain ⟨⟨htype, hkey⟩, hall⟩ := hpred
  exact hall ts.value (h ts htsdb hid htype hkey) rfl

theorem brokenLinkJoin_resource_mem (db : Db) (org : String) (row : BrokenRow)
    (h : row ∈ brokenLinkJoin db org) : row.resource_id ∈ brokenEntityIds db := by
  unfold brokenLinkJoin at h
  rcases List.mem_flatMap.mp h with ⟨ts, _, h⟩
  rcases mem_if_list h with ⟨hc, h⟩
  rcases List.mem_flatMap.mp h with ⟨r, _, h⟩
  rcases mem_if_list h with ⟨hc2, h⟩
  rcases List.mem_flatMap.mp h with ⟨rg, _, h⟩
  rcases mem_if_list h with ⟨_, h⟩
  rcases List.mem_flatMap.mp h with ⟨p, _, h⟩
  rcases mem_if_list h with ⟨_, h⟩
  rcases List.mem_flatMap.mp h with ⟨m, _, h⟩
  rcases mem_if_list h with ⟨_, h⟩
  rcases List.mem_filterMap.mp h with ⟨g, _, hg⟩
  rcases some_if_opt hg with ⟨_, hrow⟩
  subst hrow
  simp only [Bool.and_eq_true, beq_iff_eq] at hc hc2
  have hcontains : (brokenEntityIds db).contains ts.entity_id = true := hc.2
  have hmem2 : ts.entity_id ∈ brokenEntityIds db := by
    simpa using hcontains
  simpa [hc2.1] using hmem2

theorem brokenFold_output (rows : List BrokenRow) :
    ∀ (acc data2 : List RowData), List.foldlM brokenStep acc rows = Except.ok data2 →
      ∀ rd ∈ data2, rd ∈ acc ∨ ∃ row ∈ rows,
        rd = assocSet (brokenRowData row) "last_updated"
          (PyVal.time row.task_status_last_updated) := by
  induction rows with
  | nil =>
    intro acc data2 h rd hrd
    rw [List.foldlM_nil] at h
    cases h
    exact Or.inl hrd
  | cons r rows ih =>
    intro acc data2 h rd hrd
    rw [List.foldlM_cons] at h
    cases hstep : brokenStep acc r with
    | error e =>
      simp only [hstep] at h
      cases h
    | ok acc2 =>
      simp only [hstep] at h
      rcases ih acc2 data2 h rd hrd with hin | ⟨row, hrowmem, heq⟩
      · unfold brokenStep at hstep
        split at hstep
        · cases hstep
        · cases hstep
        · cases hstep
          rcases List.mem_append.mp hin with hin | hin
          · exact Or.inl hin
          · rcases List.mem_singleton.mp hin with rfl
            exact Or.inr ⟨r, List.mem_cons_self r rows, rfl⟩
      · exact Or.inr ⟨row, List.mem_cons_of_mem r hrowmem, heq⟩

theorem brokenRowData_resource_id (row : BrokenRow) (t : PyVal) :
    assocGet? (assocSet (brokenRowData row) "last_updated" t) "resource_id" =
      some (PyVal.str row.resource_id) := by
  simp [brokenRowData, assocSet, assocGet?]

/-- C6: exclusion filtering.  In the by-organisation score path, every
record delivered to the broken_resources listing carries a reason outside
not_broken_but_0_stars, so a resource whose reason is in that set never
appears there regardless of its score; in the broken-link path, a resource
all of whose archiver status values lie in archiver_status__not_broken_link
is excluded by the SQL status filter and never appears in the data
listing. -/
theorem C6_exclusion_filtering :
    (∀ (org : String) (rows : List ScoreRow) (rep : ScoresReport),
        scores_by_dataset_for_organisation org rows = Except.ok rep →
        ∀ rd ∈ rep.broken_resources, ∀ v,
          assocGet? rd "openness_score_reason" = some v →
          pyValInStrSet v not_broken_but_0_stars = false) ∧
      (∀ (db : Db) (org rid : String) (rep : BrokenReport),
        (∀ ts ∈ db.task_status, ts.entity_id = rid → ts.task_type = "archiver" →
          ts.key = "status" → ts.value ∈ archiver_status__not_broken_link) →
        broken_resource_links_for_organisation db org = Except.ok rep →
        ∀ rd ∈ rep.data, assocGet? rd "resource_id" ≠ some (PyVal.str rid)) := by
  constructor
  · intro org rows rep h rd hrd
    exact scores_report_not_excluded org rows rep h rd hrd
  · intro db org rid rep hexcl h rd hrd hgetid
    unfold broken_resource_links_for_organisation at h
    cases hfold : List.foldlM brokenStep [] (brokenLinkRows db org) with
    | error e =>
      simp only [hfold] at h
      cases h
    | ok data =>
      simp only [hfold] at h
      cases hby : Group.by_name db org with
      | none =>
        simp only [hby] at h
        cases h
      | some g =>
        simp only [hby] at h
        cases h
        rcases brokenFold_output _ [] data hfold rd hrd with hin | ⟨row, hrowmem, heq⟩
        · cases hin
        · have hjoin : row ∈ brokenLinkJoin db org :=
            (List.Perm.mem_iff (List.perm_insertionSort _ _)).mp hrowmem
          have hid : row.resource_id ∈ brokenEntityIds db :=
            brokenLinkJoin_resource_mem db org row hjoin
          have hnot : rid ∉ brokenEntityIds db := not_mem_brokenEntityIds db rid hexcl
          rw [heq, brokenRowData_resource_id] at hgetid
          have hre : row.resource_id = rid := PyVal.str.inj (Option.some.inj hgetid)
          exact hnot (hre ▸ hid)

/-- Snapshot for the C6 witness: resource r1 has its only archiver status
inside the exclusion set, r2 has a genuinely broken status. -/
def dbC6 : Db :=
  { task_status :=
      [⟨"r1", "archiver", "status", "Chose not to download", Option.none, 3⟩,
       ⟨"r2", "archiver", "status", "Resource gone", Option.none, 4⟩]
    resource :=
      [⟨"r1", "http://r1", 0, "active", "rg1"⟩,
       ⟨"r2", "http://r2", 1, "active", "rg1"⟩]
    resource_group := [⟨"rg1", "d1", "active"⟩]
    package := [⟨"d1", "dataset-one", "Dataset One", "active"⟩]
    member := [⟨"d1", "g1"⟩]
    groups := [⟨"g1", "alpha", "Alpha", "active"⟩] }

/-- Sorted row stream for the C6 witness on the score path: resource rA is
scored 0 with an excluded reason, rB with a real one. -/
def rowsC6 : List ScoreRow :=
  [⟨"d1", "openness_score", "0", 1, "rA", "http://rA", 0, "Dataset One", "dataset-one",
     "g1", "alpha", "Alpha"⟩,
   ⟨"d1", "openness_score_reason", "Chose not to download", 2, "rA", "http://rA", 0,
     "Dataset One", "dataset-one", "g1", "alpha", "Alpha"⟩,
   ⟨"d1", "openness_score", "0", 3, "rB", "http://rB", 1, "Dataset One", "dataset-one",
     "g1", "alpha", "Alpha"⟩,
   ⟨"d1", "openness_score_reason", "Resource gone", 4, "rB", "http://rB", 1,
     "Dataset One", "dataset-one", "g1", "alpha", "Alpha"⟩]

/-- Consolidated record of resource rB as the collation delivers it. -/
def recC6 : ResData :=
  [("package_name", PyVal.str "dataset-one"),
   ("package_title", PyVal.str "Dataset One"),
   ("resource_id", PyVal.str "rB"),
   ("resource_url", PyVal.str "http://rB"),
   ("resource_position", PyVal.int 1),
   ("openness_score", PyVal.str "0"),
   ("openness_score_updated", PyVal.time 4),
   ("openness_score_reason", PyVal.str "Resource gone")]

/-- Witness for C6 at concrete inputs: the excluded resource rA is dropped
from the score report (only rB appears, with a non-excluded reason), and
resource r1 with an excluded archiver status never shows in the broken
links listing. -/
theorem C6_witness :
    scores_by_dataset_for_organisation "alpha" rowsC6 =
        Except.ok ⟨"alpha", "Alpha", [recC6]⟩ ∧
      pyValInStrSet (PyVal.str "Resource gone") not_broken_but_0_stars = false ∧
      broken_resource_links_for_organisation dbC6 "alpha" =
        Except.ok ⟨"alpha", "Alpha",
          [[("dataset_title", PyVal.str "Dataset One"),
            ("dataset_name", PyVal.str "dataset-one"),
            ("publisher_title", PyVal.str "Alpha"),
            ("publisher_name", PyVal.str "alpha"),
            ("resource_position", PyVal.int 1),
            ("resource_id", PyVal.str "r2"),
            ("resource_url", PyVal.str "http://r2"),
            ("status", PyVal.str "Resource gone"),
            ("last_updated", PyVal.time 4)]]⟩ ∧
      assocGet? [("dataset_title", PyVal.str "Dataset One"),
            ("dataset_name", PyVal.str "dataset-one"),
            ("publisher_title", PyVal.str "Alpha"),
            ("publisher_name", PyVal.str "alpha"),
            ("resource_position", PyVal.int 1),
            ("resource_id", PyVal.str "r2"),
            ("resource_url", PyVal.str "http://r2"),
            ("status", PyVal.str "Resource gone"),
            ("last_updated", PyVal.time 4)] "resource_id" ≠ some (PyVal.str "r1") :=
  ⟨rfl,
   C6_exclusion_filtering.1 "alpha" rowsC6 ⟨"alpha", "Alpha", [recC6]⟩ rfl recC6
     (List.mem_singleton.mpr rfl) (PyVal.str "Resource gone") rfl,
   rfl,
   C6_exclusion_filtering.2 dbC6 "alpha" "r1" ⟨"alpha", "Alpha",
       [[("dataset_title", PyVal.str "Dataset One"),
         ("dataset_name", PyVal.str "dataset-one"),
         ("publisher_title", PyVal.str "Alpha"),
         ("publisher_name", PyVal.str "alpha"),
         ("resource_position", PyVal.int 1),
         ("resource_id", PyVal.str "r2"),
         ("resource_url", PyVal.str "http://r2"),
         ("status", PyVal.str "Resource gone"),
         ("last_updated", PyVal.time 4)]]⟩
     (by decide) rfl _ (List.mem_singleton.mpr rfl)⟩

/-! ## C8 / C4: collation equivalence machinery -/

/-- Flush outcome for one consolidated record with its reason present:
empty when the reason is excluded, the record itself otherwise. -/
def flushRec (rd : ResData) : List ResData :=
  match assocGet? rd "openness_score_reason" with
  | some v => if pyValInStrSet v not_broken_but_0_stars then [] else [rd]
  | Option.none => []

/-- Specification-level collation, following section 4.1 of the spec: one
consolidated record per group of adjacent rows sharing one resource id,
dropped when its openness_score_reason lies in the exclusion set. -/
def collateSpec (gs : List (ScoreRow × List ScoreRow)) : List ResData :=
  gs.flatMap fun g => flushRec (mergeGroup g.1 g.2)

theorem save_res_data_eq_flush (rd : ResData) (data : List ResData)
    (h : assocGet? rd "openness_score_reason" ≠ Option.none) :
    save_res_data rd data = Except.ok (data ++ flushRec rd) := by
  unfold save_res_data flushRec
  cases hget : assocGet? rd "openness_score_reason" with
  | none => exact absurd hget h
  | some v =>
    by_cases hex : pyValInStrSet v not_broken_but_0_stars = true
    · simp [hex]
    · simp [hex]

theorem mergeRowUpd_ne_nil (rd : ResData) (row : ScoreRow) : mergeRowUpd rd row ≠ [] := by
  unfold mergeRowUpd
  cases assocGet? rd "openness_score_updated" with
  | none => exact assocSet_ne_nil _ _ _
  | some v => exact assocSet_ne_nil _ _ _

theorem mergeRow_ne_nil (rd : ResData) (row : ScoreRow) : mergeRow rd row ≠ [] :=
  mergeRowUpd_ne_nil _ row

theorem foldl_mergeRow_ne_nil (t : List ScoreRow) :
    ∀ (rd : ResData), rd ≠ [] → t.foldl mergeRow rd ≠ [] := by
  induction t with
  | nil => intro rd h; exact h
  | cons r t ih =>
    intro rd _
    rw [List.foldl_cons]
    exact ih _ (mergeRow_ne_nil rd r)

theorem mergeGroup_ne_nil (h : ScoreRow) (t : List ScoreRow) : mergeGroup h t ≠ [] := by
  unfold mergeGroup
  rw [List.foldl_cons]
  exact foldl_mergeRow_ne_nil t _ (mergeRow_ne_nil _ h)

/-- Last row of a nonempty group. -/
def groupLast (g : ScoreRow × List ScoreRow) : ScoreRow := g.2.getLastD g.1

theorem getLastD_id (t : List ScoreRow) : ∀ (d : ScoreRow),
    (∀ r ∈ t, r.resource_id = d.resource_id) → (t.getLastD d).resource_id = d.resource_id := by
  induction t with
  | nil => intro d _; rfl
  | cons r t ih =>
    intro d h
    rw [List.getLastD_cons]
    have hr : r.resource_id = d.resource_id := h r (List.mem_cons_self r t)
    rw [ih r (fun x hx => by rw [h x (List.mem_cons_of_mem r hx), hr]), hr]

theorem groupLast_id (g : ScoreRow × List ScoreRow)
    (h : ∀ r ∈ g.2, r.resource_id = g.1.resource_id) :
    (groupLast g).resource_id = g.1.resource_id :=
  getLastD_id g.2 g.1 h

theorem scoreStep_same_id (lr : ScoreRow) (rd : ResData) (data : List ResData) (row : ScoreRow)
    (h : row.resource_id = lr.resource_id) :
    scoreStep ⟨some lr, some rd, data⟩ row =
      Except.ok ⟨some row, some (mergeRow rd row), data⟩ := by
  have hb : (row.resource_id != lr.resource_id) = false := by simp [h]
  simp [scoreStep, scoreFlush, hb]

theorem scoreStep_new_id (lr : ScoreRow) (rd : ResData) (data : List ResData) (row : ScoreRow)
    (hne : row.resource_id ≠ lr.resource_id) (hrd : rd ≠ [])
    (hreason : assocGet? rd "openness_score_reason" ≠ Option.none) :
    scoreStep ⟨some lr, some rd, data⟩ row =
      Except.ok ⟨some row, some (mergeRow (init_res_data row) row), data ++ flushRec rd⟩ := by
  have hb : (row.resource_id != lr.resource_id) = true := bne_iff_ne.mpr hne
  have ht : resDataTruthy (some rd) = true := by
    cases rd with
    | nil => exact absurd rfl hrd
    | cons a l => rfl
  simp [scoreStep, scoreFlush, hb, ht, save_res_data_eq_flush rd data hreason]

/-- Folding the collation over a run of rows that share the accumulator's
resource id merges them all without any flush. -/
theorem scoresFold_run (t : List ScoreRow) :
    ∀ (lr : ScoreRow) (rd : ResData) (data : List ResData),
      (∀ r ∈ t, r.resource_id = lr.resource_id) →
      List.foldlM scoreStep ⟨some lr, some rd, data⟩ t =
        Except.ok ⟨some (t.getLastD lr), some (t.foldl mergeRow rd), data⟩ := by
  induction t with
  | nil => intro lr rd data _; rfl
  | cons r t ih =>
    intro lr rd data h
    have hr : r.resource_id = lr.resource_id := h r (List.mem_cons_self r t)
    rw [List.foldlM_cons, scoreStep_same_id lr rd data r hr]
    show List.foldlM scoreStep ⟨some r, some (mergeRow rd r), data⟩ t = _
    rw [ih r (mergeRow rd r) data (fun x hx => by rw [h x (List.mem_cons_of_mem r hx), hr]),
      List.getLastD_cons, List.foldl_cons]

/-- Processing further whole groups from a state that holds the previous
group merged: every boundary flushes the previous accumulator, so the
flushed data grows by the collation of all but the last group. -/
theorem scoresFold_groups (gs : List (ScoreRow × List ScoreRow)) :
    ∀ (gp : ScoreRow × List ScoreRow) (data : List ResData),
      (∀ r ∈ gp.2, r.resource_id = gp.1.resource_id) →
      (∀ g ∈ gs, ∀ r ∈ g.2, r.resource_id = g.1.resource_id) →
      List.Chain (fun a b => a ≠ b) gp.1.resource_id (gs.map (fun g => g.1.resource_id)) →
      assocGet? (mergeGroup gp.1 gp.2) "openness_score_reason" ≠ Option.none →
      (∀ g ∈ gs, assocGet? (mergeGroup g.1 g.2) "openness_score_reason" ≠ Option.none) →
      List.foldlM scoreStep
          ⟨some (groupLast gp), some (mergeGroup gp.1 gp.2), data⟩ (joinGroups gs) =
        Except.ok ⟨some (groupLast (gs.getLastD gp)),
          some (mergeGroup (gs.getLastD gp).1 (gs.getLastD gp).2),
          data ++ collateSpec ((gp :: gs).dropLast)⟩ := by
  induction gs with
  | nil =>
    intro gp data _ _ _ _ _
    simp only [joinGroups, List.flatMap_nil, List.foldlM_nil, List.dropLast_single,
      collateSpec, List.append_nil]
    rfl
  | cons g gs2 ih =>
    intro gp data hgp hg hchain hrp hgr
    cases hchain with
    | cons hne hchain2 =>
      have hmemg : g ∈ g :: gs2 := List.mem_cons_self g gs2
      rw [show joinGroups (g :: gs2) = g.1 :: (g.2 ++ joinGroups gs2) from rfl,
        List.foldlM_cons,
        scoreStep_new_id (groupLast gp) (mergeGroup gp.1 gp.2) data g.1
          (by rw [groupLast_id gp hgp]; exact Ne.symm hne)
          (mergeGroup_ne_nil gp.1 gp.2) hrp]
      show List.foldlM scoreStep
          ⟨some g.1, some (mergeRow (init_res_data g.1) g.1),
            data ++ flushRec (mergeGroup gp.1 gp.2)⟩ (g.2 ++ joinGroups gs2) = _
      rw [List.foldlM_append,
        scoresFold_run g.2 g.1 (mergeRow (init_res_data g.1) g.1)
          (data ++ flushRec (mergeGroup gp.1 gp.2)) (hg g hmemg)]
      show List.foldlM scoreStep
          ⟨some (groupLast g), some (mergeGroup g.1 g.2),
            data ++ flushRec (mergeGroup gp.1 gp.2)⟩ (joinGroups gs2) = _
      rw [ih g (data ++ flushRec (mergeGroup gp.1 gp.2)) (hg g hmemg)
          (fun x hx => hg x (List.mem_cons_of_mem g hx)) hchain2 (hgr g hmemg)
          (fun x hx => hgr x (List.mem_cons_of_mem g hx)),
        List.getLastD_cons, List.dropLast_cons₂]
      show _ = Except.ok ⟨_, _, data ++ (flushRec (mergeGroup gp.1 gp.2) ++
        collateSpec ((g :: gs2).dropLast))⟩
      rw [List.append_assoc]

theorem getLastD_mem_cons {α : Type} (t : List α) : ∀ (d : α), t.getLastD d ∈ d :: t := by
  induction t with
  | nil => intro d; exact List.mem_singleton.mpr rfl
  | cons b t ih =>
    intro d
    rw [List.getLastD_cons]
    exact List.mem_cons_of_mem d (ih b)

theorem getLast_cons_getLastD {α : Type} (t : List α) : ∀ (d : α) (h : d :: t ≠ []),
    (d :: t).getLast h = t.getLastD d := by
  induction t with
  | nil => intro d h; rfl
  | cons b t ih =>
    intro d h
    rw [List.getLast_cons (List.cons_ne_nil b t), ih b (List.cons_ne_nil b t),
      List.getLastD_cons]

theorem scores_eq_assemble (org : String) (rows : List ScoreRow) (st : ScoreState)
    (data : List ResData)
    (h1 : List.foldlM scoreStep ⟨Option.none, Option.none, []⟩ rows = Except.ok st)
    (h2 : scoresFinalFlush st = Except.ok data) :
    scores_by_dataset_for_organisation org rows = scoresAssemble org st data := by
  unfold scores_by_dataset_for_organisation
  simp only [h1, h2]

/-- Core correspondence: on a grouped row stream whose merged groups all
carry an openness_score_reason, the collation loop succeeds and its
broken_resources output is exactly the specification collation. -/
theorem scoresRun_spec (org : String) (gs : List (ScoreRow × List ScoreRow))
    (hg : ∀ g ∈ gs, ∀ r ∈ g.2, r.resource_id = g.1.resource_id)
    (hchain : List.Chain' (fun a b => a ≠ b) (gs.map (fun g => g.1.resource_id)))
    (hgr : ∀ g ∈ gs, assocGet? (mergeGroup g.1 g.2) "openness_score_reason" ≠ Option.none) :
    ∃ rep, scores_by_dataset_for_organisation org (joinGroups gs) = Except.ok rep ∧
      rep.broken_resources = collateSpec gs := by
  cases gs with
  | nil => exact ⟨⟨org, "", []⟩, rfl, rfl⟩
  | cons g gs2 =>
    have hgmem : g ∈ g :: gs2 := List.mem_cons_self g gs2
    have hrest : ∀ x ∈ gs2, ∀ r ∈ x.2, r.resource_id = x.1.resource_id :=
      fun x hx => hg x (List.mem_cons_of_mem g hx)
    have hgrrest : ∀ x ∈ gs2, assocGet? (mergeGroup x.1 x.2) "openness_score_reason" ≠
        Option.none := fun x hx => hgr x (List.mem_cons_of_mem g hx)
    have hchain2 : List.Chain (fun a b => a ≠ b) g.1.resource_id
        (gs2.map (fun x => x.1.resource_id)) := hchain
    have hfold : List.foldlM scoreStep ⟨Option.none, Option.none, []⟩
        (joinGroups (g :: gs2)) =
        Except.ok ⟨some (groupLast (gs2.getLastD g)),
          some (mergeGroup (gs2.getLastD g).1 (gs2.getLastD g).2),
          collateSpec ((g :: gs2).dropLast)⟩ := by
      rw [show joinGroups (g :: gs2) = g.1 :: (g.2 ++ joinGroups gs2) from rfl,
        List.foldlM_cons,
        show scoreStep ⟨Option.none, Option.none, []⟩ g.1 =
          Except.ok ⟨some g.1, some (mergeRow (init_res_data g.1) g.1), []⟩ from rfl]
      show List.foldlM scoreStep
        ⟨some g.1, some (mergeRow (init_res_data g.1) g.1), []⟩ (g.2 ++ joinGroups gs2) = _
      rw [List.foldlM_append, scoresFold_run g.2 g.1 _ [] (hg g hgmem)]
      show List.foldlM scoreStep
        ⟨some (groupLast g), some (mergeGroup g.1 g.2), []⟩ (joinGroups gs2) = _
      rw [scoresFold_groups gs2 g [] (hg g hgmem) hrest hchain2 (hgr g hgmem) hgrrest,
        List.nil_append]
    have hlastmem : gs2.getLastD g ∈ g :: gs2 := getLastD_mem_cons gs2 g
    have hfin : scoresFinalFlush ⟨some (groupLast (gs2.getLastD g)),
        some (mergeGroup (gs2.getLastD g).1 (gs2.getLastD g).2),
        collateSpec ((g :: gs2).dropLast)⟩ =
        Except.ok (collateSpec (g :: gs2)) := by
      unfold scoresFinalFlush
      have hne := mergeGroup_ne_nil (gs2.getLastD g).1 (gs2.getLastD g).2
      have hemp : (mergeGroup (gs2.getLastD g).1 (gs2.getLastD g).2).isEmpty = false := by
        cases hmg : mergeGroup (gs2.getLastD g).1 (gs2.getLastD g).2 with
        | nil => exact absurd hmg hne
        | cons a l => rfl
      simp only [hemp, Bool.false_eq_true, if_false,
        save_res_data_eq_flush _ _ (hgr (gs2.getLastD g) hlastmem)]
      have hsplit : collateSpec ((g :: gs2).dropLast) ++
          flushRec (mergeGroup (gs2.getLastD g).1 (gs2.getLastD g).2) =
          collateSpec (g :: gs2) := by
        conv_rhs => rw [← List.dropLast_append_getLast (List.cons_ne_nil g gs2)]
        rw [show collateSpec ((g :: gs2).dropLast ++ [(g :: gs2).getLast (List.cons_ne_nil g gs2)]) =
            collateSpec ((g :: gs2).dropLast) ++
              collateSpec [(g :: gs2).getLast (List.cons_ne_nil g gs2)] from
          List.flatMap_append _ _ _,
          getLast_cons_getLastD gs2 g (List.cons_ne_nil g gs2)]
        show _ ++ _ = _ ++ (flushRec (mergeGroup (gs2.getLastD g).1 (gs2.getLastD g).2) ++ [])
        rw [List.append_nil]
      rw [hsplit]
    have hassemble := scores_eq_assemble org (joinGroups (g :: gs2)) _ _ hfold hfin
    cases hc : collateSpec (g :: gs2) with
    | nil =>
      refine ⟨⟨org, "", []⟩, ?_, rfl⟩
      rw [hassemble, hc]
      rfl
    | cons d ds =>
      refine ⟨⟨(groupLast (gs2.getLastD g)).publisher_name,
        (groupLast (gs2.getLastD g)).publisher_title, d :: ds⟩, ?_, rfl⟩
      rw [hassemble, hc]
      rfl

/-- Update applied to the openness_score_updated entry by one merge. -/
def mergeOsu (t : Nat) (cur : Option PyVal) : PyVal :=
  match cur with
  | some v => pyMaxTime t v
  | Option.none => PyVal.time t

theorem assocGet?_init_osu (row : ScoreRow) :
    assocGet? (init_res_data row) "openness_score_updated" = Option.none := by
  simp [init_res_data, assocGet?]

theorem mergeRow_osu (rd : ResData) (row : ScoreRow)
    (hkey : row.task_status_key ≠ "openness_score_updated") :
    assocGet? (mergeRow rd row) "openness_score_updated" =
      some (mergeOsu row.task_status_last_updated (assocGet? rd "openness_score_updated")) := by
  unfold mergeRow mergeRowUpd mergeOsu
  rw [assocGet?_set_ne rd row.task_status_key "openness_score_updated"
    (PyVal.str row.task_status_value) hkey]
  cases hc : assocGet? rd "openness_score_updated" with
  | none => exact assocGet?_set_self _ _ _
  | some v => exact assocGet?_set_self _ _ _

theorem foldl_mergeRow_osu (t : List ScoreRow) :
    ∀ (rd : ResData) (T : Nat),
      (∀ r ∈ t, r.task_status_key ≠ "openness_score_updated") →
      assocGet? rd "openness_score_updated" = some (PyVal.time T) →
      assocGet? (t.foldl mergeRow rd) "openness_score_updated" =
        some (PyVal.time (t.foldl (fun m r => max r.task_status_last_updated m) T)) := by
  induction t with
  | nil => intro rd T _ h; exact h
  | cons r t ih =>
    intro rd T hk h
    rw [List.foldl_cons, List.foldl_cons]
    apply ih (mergeRow rd r) (max r.task_status_last_updated T)
      (fun x hx => hk x (List.mem_cons_of_mem r hx))
    rw [mergeRow_osu rd r (hk r (List.mem_cons_self r t)), h]
    rfl

/-- Running maximum of the task_status_last_updated timestamps of a group. -/
def groupMaxLu (h : ScoreRow) (t : List ScoreRow) : Nat :=
  t.foldl (fun m r => max r.task_status_last_updated m) h.task_status_last_updated

theorem mergeGroup_osu (h : ScoreRow) (t : List ScoreRow)
    (hkeys : ∀ r ∈ h :: t, r.task_status_key ≠ "openness_score_updated") :
    assocGet? (mergeGroup h t) "openness_score_updated" =
      some (PyVal.time (groupMaxLu h t)) := by
  unfold mergeGroup groupMaxLu
  rw [List.foldl_cons]
  apply foldl_mergeRow_osu t _ h.task_status_last_updated
    (fun x hx => hkeys x (List.mem_cons_of_mem h hx))
  rw [mergeRow_osu _ h (hkeys h (List.mem_cons_self h t)), assocGet?_init_osu]
  rfl

/-- C8 amended: on a stream of adjacent same-resource groups whose merged
records carry an openness_score_reason (the collation raises KeyError
without one) and use no row key named openness_score_updated, the loop
flushes exactly at resource-id changes and at end-of-stream, merges every
row's key/value pair, and maintains the record timestamp as the running
maximum; the delivered records are exactly one per group, except that a
group whose reason lies in not_broken_but_0_stars is dropped by the
exclusion filter and yields none (the correction to the claim). -/
theorem C8_collation_amended (org : String) (gs : List (ScoreRow × List ScoreRow))
    (hg : ∀ g ∈ gs, ∀ r ∈ g.2, r.resource_id = g.1.resource_id)
    (hchain : List.Chain' (fun a b => a ≠ b) (gs.map (fun g => g.1.resource_id)))
    (hgr : ∀ g ∈ gs, assocGet? (mergeGroup g.1 g.2) "openness_score_reason" ≠ Option.none)
    (hkey : ∀ g ∈ gs, ∀ r ∈ g.1 :: g.2, r.task_status_key ≠ "openness_score_updated") :
    (∃ rep, scores_by_dataset_for_organisation org (joinGroups gs) = Except.ok rep ∧
      rep.broken_resources = collateSpec gs) ∧
    ∀ g ∈ gs, assocGet? (mergeGroup g.1 g.2) "openness_score_updated" =
      some (PyVal.time (groupMaxLu g.1 g.2)) :=
  ⟨scoresRun_spec org gs hg hchain hgr,
   fun g hgm => mergeGroup_osu g.1 g.2 (hkey g hgm)⟩

/-- Rows of a single resource rA whose reason is in the exclusion set. -/
def rowsC8x : List ScoreRow :=
  [⟨"d1", "openness_score", "0", 1, "rA", "http://rA", 0, "Dataset One", "dataset-one",
     "g1", "alpha", "Alpha"⟩,
   ⟨"d1", "openness_score_reason", "Chose not to download", 2, "rA", "http://rA", 0,
     "Dataset One", "dataset-one", "g1", "alpha", "Alpha"⟩]

/-- C8 fails as stated: this stream holds exactly one distinct resource,
yet the returned report holds zero consolidated records, because the
flush drops records whose reason is in the exclusion set. -/
theorem C8_counterexample :
    scores_by_dataset_for_organisation "alpha" rowsC8x =
        Except.ok ⟨"alpha", "", []⟩ ∧
      (rowsC8x.map (fun r => r.resource_id)).dedup = ["rA"] :=
  ⟨rfl, by decide⟩

/-- Grouped form of the rowsC6 stream: the excluded resource rA and the
delivered resource rB. -/
def gsC8 : List (ScoreRow × List ScoreRow) :=
  [(⟨"d1", "openness_score", "0", 1, "rA", "http://rA", 0, "Dataset One", "dataset-one",
      "g1", "alpha", "Alpha"⟩,
    [⟨"d1", "openness_score_reason", "Chose not to download", 2, "rA", "http://rA", 0,
       "Dataset One", "dataset-one", "g1", "alpha", "Alpha"⟩]),
   (⟨"d1", "openness_score", "0", 3, "rB", "http://rB", 1, "Dataset One", "dataset-one",
      "g1", "alpha", "Alpha"⟩,
    [⟨"d1", "openness_score_reason", "Resource gone", 4, "rB", "http://rB", 1,
       "Dataset One", "dataset-one", "g1", "alpha", "Alpha"⟩])]

/-- Witness for C8 amended at the concrete grouped stream gsC8: the run
delivers exactly the specification collation (one record, for rB), and the
merged rB group carries the running-maximum timestamp 4. -/
theorem C8_witness :
    scores_by_dataset_for_organisation "alpha" (joinGroups gsC8) =
        Except.ok ⟨"alpha", "Alpha", [recC6]⟩ ∧
      collateSpec gsC8 = [recC6] ∧
      assocGet? (mergeGroup
          ⟨"d1", "openness_score", "0", 3, "rB", "http://rB", 1, "Dataset One",
            "dataset-one", "g1", "alpha", "Alpha"⟩
          [⟨"d1", "openness_score_reason", "Resource gone", 4, "rB", "http://rB", 1,
             "Dataset One", "dataset-one", "g1", "alpha", "Alpha"⟩]) "openness_score_updated" =
        some (PyVal.time 4) := by
  refine ⟨rfl, rfl, ?_⟩
  have h := (C8_collation_amended "alpha" gsC8 (by decide)
    (by simp [gsC8, List.chain'_cons])
    (by decide) (by decide)).2
  have h2 := h (⟨"d1", "openness_score", "0", 3, "rB", "http://rB", 1, "Dataset One",
      "dataset-one", "g1", "alpha", "Alpha"⟩,
    [⟨"d1", "openness_score_reason", "Resource gone", 4, "rB", "http://rB", 1,
       "Dataset One", "dataset-one", "g1", "alpha", "Alpha"⟩]) (by decide)
  exact h2.trans (by rfl)

/-! ## C4 -/

/-- Keys the collation can write for one group: the five resource columns
set by init_res_data, the timestamp key, and the task_status keys of the
group's rows. -/
def scoreWrittenKeys (g : ScoreRow × List ScoreRow) : List String :=
  ["package_name", "package_title", "resource_id", "resource_url", "resource_position",
   "openness_score_updated"] ++ (g.1 :: g.2).map (fun r => r.task_status_key)

theorem assocGet?_init_res_data (row : ScoreRow) (K : String)
    (h : K ∉ (["package_name", "package_title", "resource_id", "resource_url",
      "resource_position"] : List String)) :
    assocGet? (init_res_data row) K = Option.none := by
  simp only [List.mem_cons, List.not_mem_nil, or_false, not_or] at h
  obtain ⟨h1, h2, h3, h4, h5⟩ := h
  simp [init_res_data, assocGet?, Ne.symm h1, Ne.symm h2, Ne.symm h3, Ne.symm h4, Ne.symm h5]

theorem mergeRow_get_other (rd : ResData) (row : ScoreRow) (K : String)
    (hrk : row.task_status_key ≠ K) (hosu : K ≠ "openness_score_updated") :
    assocGet? (mergeRow rd row) K = assocGet? rd K := by
  unfold mergeRow mergeRowUpd
  cases hc : assocGet? (assocSet rd row.task_status_key (PyVal.str row.task_status_value))
      "openness_score_updated" with
  | none =>
    rw [assocGet?_set_ne _ _ _ _ (Ne.symm hosu), assocGet?_set_ne _ _ _ _ hrk]
  | some v =>
    rw [assocGet?_set_ne _ _ _ _ (Ne.symm hosu), assocGet?_set_ne _ _ _ _ hrk]

theorem foldl_mergeRow_get_other (t : List ScoreRow) :
    ∀ (rd : ResData) (K : String),
      (∀ r ∈ t, r.task_status_key ≠ K) → K ≠ "openness_score_updated" →
      assocGet? (t.foldl mergeRow rd) K = assocGet? rd K := by
  induction t with
  | nil => intro rd K _ _; rfl
  | cons r t ih =>
    intro rd K hk hosu
    rw [List.foldl_cons, ih (mergeRow rd r) K (fun x hx => hk x (List.mem_cons_of_mem r hx)) hosu,
      mergeRow_get_other rd r K (hk r (List.mem_cons_self r t)) hosu]

theorem mergeGroup_missing_key (g : ScoreRow × List ScoreRow) (K : String)
    (hK : K ∉ scoreWrittenKeys g) : assocGet? (mergeGroup g.1 g.2) K = Option.none := by
  have hmem : ∀ s ∈ (["package_name", "package_title", "resource_id", "resource_url",
      "resource_position", "openness_score_updated"] : List String), K ≠ s := by
    intro s hs he
    exact hK (List.mem_append.mpr (Or.inl (he ▸ hs)))
  have hkeys : ∀ r ∈ g.1 :: g.2, r.task_status_key ≠ K := by
    intro r hr he
    exact hK (List.mem_append.mpr (Or.inr (List.mem_map.mpr ⟨r, hr, he⟩)))
  have hosu : K ≠ "openness_score_updated" := hmem "openness_score_updated" (by simp)
  unfold mergeGroup
  rw [List.foldl_cons,
    foldl_mergeRow_get_other g.2 _ K (fun r hr => hkeys r (List.mem_cons_of_mem g.1 hr)) hosu,
    mergeRow_get_other _ g.1 K (hkeys g.1 (List.mem_cons_self g.1 g.2)) hosu]
  apply assocGet?_init_res_data g.1 K
  intro hm
  refine hmem K ?_ rfl
  simp only [List.mem_cons, List.mem_singleton] at hm ⊢
  tauto

/-- C4 amended: on a grouped stream whose merged groups all carry an
openness_score_reason, the collation does not raise, each non-excluded
group's consolidated record is delivered, and any key the group's rows
never wrote is absent from that record rather than defaulted (absence is
simply an unwritten key).  The correction: a consolidated record lacking
openness_score_reason itself is not delivered as unscored — save_res_data
reads it with a bare [] lookup and the collation raises KeyError. -/
theorem C4_missing_keys_amended (org : String) (gs : List (ScoreRow × List ScoreRow))
    (hg : ∀ g ∈ gs, ∀ r ∈ g.2, r.resource_id = g.1.resource_id)
    (hchain : List.Chain' (fun a b => a ≠ b) (gs.map (fun g => g.1.resource_id)))
    (hgr : ∀ g ∈ gs, assocGet? (mergeGroup g.1 g.2) "openness_score_reason" ≠ Option.none) :
    ∃ rep, scores_by_dataset_for_organisation org (joinGroups gs) = Except.ok rep ∧
      ∀ g ∈ gs, ∀ v, assocGet? (mergeGroup g.1 g.2) "openness_score_reason" = some v →
        pyValInStrSet v not_broken_but_0_stars = false →
        mergeGroup g.1 g.2 ∈ rep.broken_resources ∧
        ∀ K, K ∉ scoreWrittenKeys g → assocGet? (mergeGroup g.1 g.2) K = Option.none := by
  obtain ⟨rep, hrep, hbr⟩ := scoresRun_spec org gs hg hchain hgr
  refine ⟨rep, hrep, ?_⟩
  intro g hgm v hv hnex
  constructor
  · rw [hbr]
    apply List.mem_flatMap.mpr
    refine ⟨g, hgm, ?_⟩
    simp [flushRec, hv, hnex]
  · exact fun K hK => mergeGroup_missing_key g K hK

/-- C4 fails as stated at the spec's own example (a score without a
reason): the record is not delivered with the reason absent; the bare
dictionary lookup in save_res_data raises KeyError. -/
theorem C4_counterexample :
    scores_by_dataset_for_organisation "alpha"
      [⟨"d1", "openness_score", "0", 1, "rC", "http://rC", 0, "Dataset One",
         "dataset-one", "g1", "alpha", "Alpha"⟩] = Except.error PyErr.keyError := rfl

/-- Group of the single resource rD, which has a reason but no score row. -/
def gC4 : ScoreRow × List ScoreRow :=
  (⟨"d1", "openness_score_reason", "Resource gone", 7, "rD", "http://rD", 0,
     "Dataset One", "dataset-one", "g1", "alpha", "Alpha"⟩, [])

/-- One-group stream holding only rD. -/
def gsC4 : List (ScoreRow × List ScoreRow) := [gC4]

/-- Consolidated record of rD: no openness_score key at all. -/
def recC4 : ResData :=
  [("package_name", PyVal.str "dataset-one"),
   ("package_title", PyVal.str "Dataset One"),
   ("resource_id", PyVal.str "rD"),
   ("resource_url", PyVal.str "http://rD"),
   ("resource_position", PyVal.int 0),
   ("openness_score_reason", PyVal.str "Resource gone"),
   ("openness_score_updated", PyVal.time 7)]

/-- Witness for C4 amended: the reason-only resource rD is delivered with
its openness_score key absent (unscored), and the run does not raise. -/
theorem C4_witness :
    scores_by_dataset_for_organisation "alpha" (joinGroups gsC4) =
        Except.ok ⟨"alpha", "Alpha", [recC4]⟩ ∧
      recC4 ∈ (⟨"alpha", "Alpha", [recC4]⟩ : ScoresReport).broken_resources ∧
      assocGet? recC4 "openness_score" = Option.none := by
  obtain ⟨rep, hrep, hprop⟩ := C4_missing_keys_amended "alpha" gsC4 (by decide)
    (by simp [gsC4]) (by decide)
  have hcalc : scores_by_dataset_for_organisation "alpha" (joinGroups gsC4) =
      Except.ok ⟨"alpha", "Alpha", [recC4]⟩ := rfl
  have hrepeq : rep = ⟨"alpha", "Alpha", [recC4]⟩ := by
    rw [hrep] at hcalc
    exact Except.ok.inj hcalc
  subst hrepeq
  have hmg : mergeGroup gC4.1 gC4.2 = recC4 := rfl
  have h2 := hprop gC4 (by decide) (PyVal.str "Resource gone") rfl rfl
  refine ⟨hcalc, ?_, ?_⟩
  · exact hmg ▸ h2.1
  · rw [← hmg]
    exact h2.2 "openness_score" (by decide)

/-! ## C1: lexicographic string order lemmas -/

theorem listCharLt_irrefl : ∀ l : List Char, listCharLt l l = false := by
  intro l
  induction l with
  | nil => rfl
  | cons a l ih => simp [listCharLt, ih]

theorem listCharLt_asymm : ∀ a b : List Char, listCharLt a b = true → listCharLt b a = false := by
  intro a
  induction a with
  | nil =>
    intro b h
    cases b with
    | nil => cases h
    | cons x xs => rfl
  | cons c cs ih =>
    intro b h
    cases b with
    | nil => cases h
    | cons x xs =>
      by_cases h1 : c.toNat < x.toNat
      · have h1a : ¬ x.toNat < c.toNat := Nat.lt_asymm h1
        simp [listCharLt, h1a, h1]
      · by_cases h2 : x.toNat < c.toNat
        · simp [listCharLt, h1, h2] at h
        · simp only [listCharLt, if_neg h1, if_neg h2] at h
          simp only [listCharLt, if_neg h2, if_neg h1]
          exact ih xs h

theorem listCharLt_trans : ∀ a b c : List Char,
    listCharLt a b = true → listCharLt b c = true → listCharLt a c = true := by
  intro a
  induction a with
  | nil =>
    intro b c hab hbc
    cases b with
    | nil => cases hab
    | cons y ys =>
      cases c with
      | nil => cases hbc
      | cons z zs => rfl
  | cons x xs ih =>
    intro b c hab hbc
    cases b with
    | nil => cases hab
    | cons y ys =>
      cases c with
      | nil => cases hbc
      | cons z zs =>
        simp only [listCharLt] at hab hbc ⊢
        by_cases hxy : x.toNat < y.toNat
        · by_cases hyz : y.toNat < z.toNat
          · simp [Nat.lt_trans hxy hyz]
          · by_cases hzy : z.toNat < y.toNat
            · simp [hyz, hzy] at hbc
            · have hyzeq : y.toNat = z.toNat := Nat.le_antisymm (Nat.le_of_not_lt hzy) (Nat.le_of_not_lt hyz)
              simp [hyzeq ▸ hxy]
        · by_cases hyx : y.toNat < x.toNat
          · simp [hxy, hyx] at hab
          · have hxyeq : x.toNat = y.toNat := Nat.le_antisymm (Nat.le_of_not_lt hyx) (Nat.le_of_not_lt hxy)
            by_cases hyz : y.toNat < z.toNat
            · simp [hxyeq ▸ hyz]
            · by_cases hzy : z.toNat < y.toNat
              · simp [hyz, hzy] at hbc
              · simp only [if_neg hyz, if_neg hzy] at hbc
                have h1 : ¬ x.toNat < z.toNat := by rw [hxyeq]; exact hyz
                have h2 : ¬ z.toNat < x.toNat := by rw [hxyeq]; exact hzy
                simp only [if_neg hxy, if_neg hyx] at hab
                simp [h1, h2, ih ys zs hab hbc]

theorem listCharLt_conn : ∀ a b : List Char,
    listCharLt a b = false → listCharLt b a = false → a = b := by
  intro a
  induction a with
  | nil =>
    intro b hab _
    cases b with
    | nil => rfl
    | cons y ys => cases hab
  | cons x xs ih =>
    intro b hab hba
    cases b with
    | nil => cases hba
    | cons y ys =>
      simp only [listCharLt] at hab hba
      by_cases hxy : x.toNat < y.toNat
      · simp [hxy] at hab
      · by_cases hyx : y.toNat < x.toNat
        · simp [hyx, hxy] at hba
        · have hxyeq : x.toNat = y.toNat := Nat.le_antisymm (Nat.le_of_not_lt hyx) (Nat.le_of_not_lt hxy)
          simp only [if_neg hxy, if_neg hyx] at hab
          simp only [if_neg hyx, if_neg hxy] at hba
          have : x = y := by
            have := congrArg Char.ofNat hxyeq
            simpa [Char.ofNat_toNat] using this
          rw [this, ih ys hab hba]

theorem strLt_irrefl (s : String) : strLt s s = false := listCharLt_irrefl s.data

theorem strLt_asymm {a b : String} (h : strLt a b = true) : strLt b a = false :=
  listCharLt_asymm a.data b.data h

theorem strLt_trans {a b c : String} (h1 : strLt a b = true) (h2 : strLt b c = true) :
    strLt a c = true :=
  listCharLt_trans a.data b.data c.data h1 h2

theorem str_eq_of_not_lt {a b : String} (h1 : strLt a b = false) (h2 : strLt b a = false) :
    a = b := by
  cases a with
  | mk la =>
    cases b with
    | mk lb =>
      have : la = lb := listCharLt_conn la lb h1 h2
      rw [this]

theorem strLe_self (a : String) : strLe a a = true := by
  simp [strLe, strLt_irrefl]

theorem strMax_left (a b : String) : strLe a (strMax a b) = true := by
  unfold strMax
  cases h : strLt a b with
  | true => simp [strLe, strLt_asymm h]
  | false => simp [strLe_self]

theorem strMax_right (a b : String) : strLe b (strMax a b) = true := by
  unfold strMax
  cases h : strLt a b with
  | true => simp [strLe_self]
  | false => simp [strLe, h]

theorem strMax_choice (a b : String) : strMax a b = a ∨ strMax a b = b := by
  unfold strMax
  cases strLt a b with
  | true => exact Or.inr (by simp)
  | false => exact Or.inl (by simp)

theorem strLe_trans {a b c : String} (h1 : strLe a b = true) (h2 : strLe b c = true) :
    strLe a c = true := by
  simp only [strLe, Bool.not_eq_true'] at h1 h2 ⊢
  cases hca : strLt c a with
  | false => rfl
  | true =>
    cases hbc : strLt b c with
    | true =>
      rw [strLt_trans hbc hca] at h1
      cases h1
    | false =>
      rw [str_eq_of_not_lt hbc h2] at h1
      rw [h1] at hca
      cases hca

theorem strLt_of_le_ne {a b : String} (h1 : strLe a b = true) (h2 : a ≠ b) :
    strLt a b = true := by
  simp only [strLe, Bool.not_eq_true'] at h1
  cases hab : strLt a b with
  | true => rfl
  | false => exact absurd (str_eq_of_not_lt hab h1) h2

theorem strLe_lt_trans {a b c : String} (h1 : strLe a b = true) (h2 : strLt b c = true) :
    strLt a c = true := by
  simp only [strLe, Bool.not_eq_true'] at h1
  cases hab : strLt a b with
  | true => exact strLt_trans hab h2
  | false => rw [str_eq_of_not_lt hab h1]; exact h2

theorem foldl_strMax_init_le (l : List String) : ∀ (c : String),
    strLe c (l.foldl strMax c) = true := by
  induction l with
  | nil => intro c; exact strLe_self c
  | cons x l ih =>
    intro c
    rw [List.foldl_cons]
    exact strLe_trans (strMax_left c x) (ih (strMax c x))

theorem foldl_strMax_mem_le (l : List String) : ∀ (c s : String), s ∈ l →
    strLe s (l.foldl strMax c) = true := by
  induction l with
  | nil => intro c s h; cases h
  | cons x l ih =>
    intro c s h
    rw [List.foldl_cons]
    rcases List.mem_cons.mp h with rfl | h
    · exact strLe_trans (strMax_right c s) (foldl_strMax_init_le l (strMax c s))
    · exact ih (strMax c x) s h

theorem foldl_strMax_mem (l : List String) : ∀ (c : String),
    l.foldl strMax c = c ∨ l.foldl strMax c ∈ l := by
  induction l with
  | nil => intro c; exact Or.inl rfl
  | cons x l ih =>
    intro c
    rw [List.foldl_cons]
    rcases ih (strMax c x) with h | h
    · rcases strMax_choice c x with h2 | h2
      · exact Or.inl (h.trans h2)
      · exact Or.inr (List.mem_cons.mpr (Or.inl (h.trans h2)))
    · exact Or.inr (List.mem_cons_of_mem x h)

/-- Score values carried by the joined five_stars rows of one
(package name, package title) group. -/
def valuesFor (rows : List (String × String × String)) (k : String × String) : List String :=
  rows.filterMap (fun row => if (row.1, row.2.1) = k then some row.2.2 else Option.none)

/-- Invariant of the GROUP BY fold: every group entry holds a value drawn
from the rows seen so far for that group, and no seen value exceeds it. -/
def GroupInv (d : List ((String × String) × String)) (seen : String × String → List String) :
    Prop :=
  ∀ k, match assocGet? d k with
    | some v => v ∈ seen k ∧ ∀ s ∈ seen k, strLe s v = true
    | Option.none => seen k = []

theorem groupInv_congr (d : List ((String × String) × String))
    (s1 s2 : String × String → List String) (h : GroupInv d s1) (he : ∀ k, s1 k = s2 k) :
    GroupInv d s2 := by
  intro k
  have hk := h k
  cases hget : assocGet? d k with
  | none =>
    rw [hget] at hk
    rw [← he k]
    exact hk
  | some v =>
    rw [hget] at hk
    rw [← he k]
    exact hk

theorem fiveStarsStep_inv (d : List ((String × String) × String))
    (seen : String × String → List String) (row : String × String × String)
    (h : GroupInv d seen) :
    GroupInv (fiveStarsStep d row) (fun k => seen k ++ valuesFor [row] k) := by
  intro k
  by_cases heq : (row.1, row.2.1) = k
  · have hv : valuesFor [row] k = [row.2.2] := by simp [valuesFor, heq]
    cases hget : assocGet? d (row.1, row.2.1) with
    | some cur =>
      have hk := h k
      rw [heq] at hget
      rw [hget] at hk
      obtain ⟨hmem, hb⟩ := hk
      simp only [fiveStarsStep, heq, hget, assocGet?_set_self, hv]
      constructor
      · rcases strMax_choice cur row.2.2 with h2 | h2
        · exact List.mem_append.mpr (Or.inl (by rw [h2]; exact hmem))
        · exact List.mem_append.mpr (Or.inr (List.mem_singleton.mpr h2))
      · intro s hs
        rcases List.mem_append.mp hs with hs | hs
        · exact strLe_trans (hb s hs) (strMax_left cur row.2.2)
        · rcases List.mem_singleton.mp hs with rfl
          exact strMax_right cur row.2.2
    | none =>
      have hk := h k
      rw [heq] at hget
      rw [hget] at hk
      simp only [fiveStarsStep, heq, hget, assocGet?_append, assocGet?, if_pos rfl, hv, hk]
      refine ⟨List.mem_singleton.mpr rfl, fun s hs => ?_⟩
      rcases List.mem_singleton.mp hs with rfl
      exact strLe_self _
  · have hv : valuesFor [row] k = [] := by simp [valuesFor, heq]
    have hk := h k
    cases hget : assocGet? d (row.1, row.2.1) with
    | some cur =>
      simp only [fiveStarsStep, hget, hv, List.append_nil]
      rw [assocGet?_set_ne d (row.1, row.2.1) k (strMax cur row.2.2) heq]
      exact hk
    | none =>
      simp only [fiveStarsStep, hget, assocGet?_append, hv, List.append_nil]
      cases hget2 : assocGet? d k with
      | some v =>
        rw [hget2] at hk
        exact hk
      | none =>
        rw [hget2] at hk
        simp only [assocGet?, if_neg heq]
        exact hk

theorem fiveStarsFold_inv (rows : List (String × String × String)) :
    ∀ (d : List ((String × String) × String)) (seen : String × String → List String),
      GroupInv d seen →
      GroupInv (rows.foldl fiveStarsStep d) (fun k => seen k ++ valuesFor rows k) := by
  induction rows with
  | nil =>
    intro d seen h
    apply groupInv_congr d seen _ h
    intro k
    simp [valuesFor]
  | cons row rest ih =>
    intro d seen h
    rw [List.foldl_cons]
    apply groupInv_congr _ _ _ (ih _ _ (fiveStarsStep_inv d seen row h))
    intro k
    by_cases hc : (row.1, row.2.1) = k
    · simp [valuesFor, List.filterMap_cons, hc]
    · simp [valuesFor, List.filterMap_cons, hc]

theorem assocGet?_none_iff_not_mem {κ ν : Type} [DecidableEq κ] (d : List (κ × ν)) (k : κ) :
    assocGet? d k = Option.none ↔ k ∉ d.map Prod.fst := by
  induction d with
  | nil => simp [assocGet?]
  | cons hd tl ih =>
    by_cases h : hd.1 = k
    · simp [assocGet?, h]
    · simp [assocGet?, h, ih, Ne.symm h]

theorem map_fst_assocSet_mem {κ ν : Type} [DecidableEq κ] (d : List (κ × ν)) (k : κ) (v : ν)
    (h : k ∈ d.map Prod.fst) : (assocSet d k v).map Prod.fst = d.map Prod.fst := by
  induction d with
  | nil => cases h
  | cons hd tl ih =>
    by_cases h2 : hd.1 = k
    · simp [assocSet, h2]
    · have hmem : k ∈ tl.map Prod.fst := by
        rcases List.mem_cons.mp h with h3 | h3
        · exact absurd h3.symm h2
        · exact h3
      simp [assocSet, h2, ih hmem]

theorem mem_assocGet? {κ ν : Type} [DecidableEq κ] (d : List (κ × ν))
    (hnd : (d.map Prod.fst).Nodup) (k : κ) (v : ν) (h : (k, v) ∈ d) :
    assocGet? d k = some v := by
  induction d with
  | nil => cases h
  | cons hd tl ih =>
    rcases List.mem_cons.mp h with h2 | h2
    · rw [← h2]
      simp [assocGet?]
    · have hk : k ∈ tl.map Prod.fst := List.mem_map.mpr ⟨(k, v), h2, rfl⟩
      have hne : hd.1 ≠ k := by
        intro he
        exact (List.nodup_cons.mp hnd).1 (he ▸ hk)
      rw [show assocGet? (hd :: tl) k = if hd.1 = k then some hd.2 else assocGet? tl k from rfl,
        if_neg hne]
      exact ih (List.nodup_cons.mp hnd).2 h2

theorem fiveStarsStep_keys_nodup (d : List ((String × String) × String))
    (row : String × String × String) (h : (d.map Prod.fst).Nodup) :
    ((fiveStarsStep d row).map Prod.fst).Nodup := by
  unfold fiveStarsStep
  cases hget : assocGet? d (row.1, row.2.1) with
  | some cur =>
    rw [map_fst_assocSet_mem d _ _ (by
      by_contra hnm
      rw [(assocGet?_none_iff_not_mem d (row.1, row.2.1)).mpr hnm] at hget
      cases hget)]
    exact h
  | none =>
    rw [List.map_append]
    refine List.Nodup.append h (by simp) ?_
    intro x hx hx2
    simp only [List.map_cons, List.map_nil, List.mem_singleton] at hx2
    exact (assocGet?_none_iff_not_mem d (row.1, row.2.1)).mp hget (hx2 ▸ hx)

theorem fiveStarsGroup_keys_nodup (rows : List (String × String × String)) :
    ∀ (d : List ((String × String) × String)), (d.map Prod.fst).Nodup →
      ((rows.foldl fiveStarsStep d).map Prod.fst).Nodup := by
  induction rows with
  | nil => intro d h; exact h
  | cons row rest ih =>
    intro d h
    rw [List.foldl_cons]
    exact ih _ (fiveStarsStep_keys_nodup d row h)

/-- Max selection in the catalog view: every five_stars result row's score
is one of its group's score values and no value of the group exceeds it in
the string order the SQL MAX uses. -/
theorem fiveStarsData_max (db : Db) (pkgId : Option String) :
    ∀ e ∈ fiveStarsData db pkgId,
      e.openness_score ∈ valuesFor (fiveStarsScoreRows db pkgId) (e.name, e.title) ∧
      ∀ s ∈ valuesFor (fiveStarsScoreRows db pkgId) (e.name, e.title),
        strLe s e.openness_score = true := by
  intro e he
  unfold fiveStarsData at he
  rcases List.mem_map.mp he with ⟨kv, hkv, heq⟩
  have hkv2 : kv ∈ fiveStarsGroup (fiveStarsScoreRows db pkgId) :=
    (List.Perm.mem_iff (List.perm_insertionSort _ _)).mp hkv
  obtain ⟨⟨kn, kt⟩, v⟩ := kv
  have hget : assocGet? (fiveStarsGroup (fiveStarsScoreRows db pkgId)) (kn, kt) = some v :=
    mem_assocGet? _ (fiveStarsGroup_keys_nodup _ [] (by simp)) _ _ hkv2
  have hinv := fiveStarsFold_inv (fiveStarsScoreRows db pkgId) [] (fun _ => [])
    (by intro k; simp [assocGet?])
  have hk := hinv (kn, kt)
  rw [show List.foldl fiveStarsStep [] (fiveStarsScoreRows db pkgId) =
    fiveStarsGroup (fiveStarsScoreRows db pkgId) from rfl, hget] at hk
  rw [← heq]
  simpa using hk

/-- Openness-score rows of one package in the stream. -/
def scoreRowsFor (rows : List ScoreRow) (p : String) : List ScoreRow :=
  rows.filter (fun r => r.package_name == p && r.task_status_key == "openness_score")

/-- Selection step of organisation_dataset_scores: the incoming score row
replaces the current best when the stored score is falsy or strictly
smaller in the Python 2 string order. -/
def odsSelStep (acc : Option ScoreRow) (r : ScoreRow) : Option ScoreRow :=
  match acc with
  | Option.none => some r
  | some a =>
    if a.task_status_value == "" || strLt a.task_status_value r.task_status_value then some r
    else some a

/-- Best-scoring row selected from a package's score rows in input order. -/
def odsSel (l : List ScoreRow) : Option ScoreRow := l.foldl odsSelStep Option.none

/-- Invariant of the organisation_dataset_scores fold: each package entry
holds exactly the score and resource id of the row odsSel picks from the
score rows seen so far. -/
def OdsInv (d : List (String × OdsEntry)) (seen : String → List ScoreRow) : Prop :=
  ∀ p, match assocGet? d p with
    | some e => e.openness_score = (odsSel (seen p)).map (fun r => r.task_status_value) ∧
        e.resource_id = (odsSel (seen p)).map (fun r => r.resource_id)
    | Option.none => seen p = []

theorem odsInv_congr (d : List (String × OdsEntry)) (s1 s2 : String → List ScoreRow)
    (h : OdsInv d s1) (he : ∀ p, s1 p = s2 p) : OdsInv d s2 := by
  intro p
  have hp := h p
  cases hget : assocGet? d p with
  | none => rw [hget] at hp; rw [← he p]; exact hp
  | some e => rw [hget] at hp; rw [← he p]; exact hp

theorem odsSel_append_one (l : List ScoreRow) (r : ScoreRow) :
    odsSel (l ++ [r]) = odsSelStep (odsSel l) r := by
  unfold odsSel
  rw [List.foldl_append]
  rfl

theorem odsStep_inv (d : List (String × OdsEntry)) (seen : String → List ScoreRow)
    (row : ScoreRow) (h : OdsInv d seen) :
    OdsInv (odsStep d row) (fun p => seen p ++ scoreRowsFor [row] p) := by
  intro p
  by_cases hp : row.package_name = p
  · subst hp
    have h0 : (match assocGet? d row.package_name with
        | some pd => pd
        | Option.none => odsInitEntry row).openness_score =
          (odsSel (seen row.package_name)).map (fun r => r.task_status_value) ∧
        (match assocGet? d row.package_name with
        | some pd => pd
        | Option.none => odsInitEntry row).resource_id =
          (odsSel (seen row.package_name)).map (fun r => r.resource_id) := by
      have hq := h row.package_name
      cases hget : assocGet? d row.package_name with
      | some pd =>
        rw [hget] at hq
        exact hq
      | none =>
        rw [hget] at hq
        rw [hq]
        exact ⟨rfl, rfl⟩
    set pd0 := (match assocGet? d row.package_name with
      | some pd => pd
      | Option.none => odsInitEntry row) with hpd0
    by_cases hkey : row.task_status_key = "openness_score"
    · have hsr : scoreRowsFor [row] row.package_name = [row] := by
        simp [scoreRowsFor, hkey]
      have hsel : odsSel (seen row.package_name ++ scoreRowsFor [row] row.package_name) =
          odsSelStep (odsSel (seen row.package_name)) row := by
        rw [hsr, odsSel_append_one]
      cases hs0 : odsSel (seen row.package_name) with
      | none =>
        have hscore : pd0.openness_score = Option.none := by rw [h0.1, hs0]; rfl
        have hbeats : odsScoreBeats row.task_status_value pd0.openness_score = true := by
          rw [hscore]; rfl
        simp only [odsStep, ← hpd0, hkey, hbeats, beq_self_eq_true, Bool.and_true,
          Bool.true_and, if_true, assocGet?_set_self, hsel, hs0]
        exact ⟨rfl, rfl⟩
      | some a =>
        have hscore : pd0.openness_score = some a.task_status_value := by rw [h0.1, hs0]; rfl
        cases hcond : (a.task_status_value == "" || strLt a.task_status_value row.task_status_value) with
        | true =>
          have hbeats : odsScoreBeats row.task_status_value pd0.openness_score = true := by
            rw [hscore]
            exact hcond
          simp only [odsStep, ← hpd0, hkey, hbeats, beq_self_eq_true, Bool.and_true,
            Bool.true_and, if_true, assocGet?_set_self, hsel, hs0, odsSelStep, hcond, if_true]
          exact ⟨rfl, rfl⟩
        | false =>
          have hbeats : odsScoreBeats row.task_status_value pd0.openness_score = false := by
            rw [hscore]
            exact hcond
          simp only [odsStep, ← hpd0, hkey, hbeats, beq_self_eq_true, Bool.and_false,
            Bool.true_and, Bool.false_eq_true, if_false,
            show ("openness_score" == "openness_score_reason") = false from rfl,
            Bool.false_and, assocGet?_set_self, hsel, hs0, odsSelStep, hcond]
          exact ⟨by rw [h0.1, hs0], by rw [h0.2, hs0]⟩
    · have hsr : scoreRowsFor [row] row.package_name = [] := by
        simp [scoreRowsFor, hkey]
      have hkeyb : (row.task_status_key == "openness_score") = false := by
        simpa using hkey
      simp only [odsStep, ← hpd0, hkeyb, Bool.false_and, if_false, assocGet?_set_self, hsr,
        List.append_nil]
      by_cases hkey3 : (row.task_status_key == "openness_score_reason" &&
          pd0.resource_id == some row.resource_id) = true
      · simp only [hkey3, if_true]
        exact ⟨h0.1, h0.2⟩
      · simp only [Bool.not_eq_true] at hkey3
        simp only [hkey3, if_false]
        exact ⟨h0.1, h0.2⟩
  · have hv : scoreRowsFor [row] p = [] := by
      simp [scoreRowsFor, hp]
    have hset : assocGet? (odsStep d row) p = assocGet? d p := by
      unfold odsStep
      exact assocGet?_set_ne d row.package_name p _ hp
    have hq := h p
    simp only [hset, hv, List.append_nil]
    exact hq

theorem odsFold_inv (rows : List ScoreRow) :
    ∀ (d : List (String × OdsEntry)) (seen : String → List ScoreRow),
      OdsInv d seen →
      OdsInv (rows.foldl odsStep d) (fun p => seen p ++ scoreRowsFor rows p) := by
  induction rows with
  | nil =>
    intro d seen h
    apply odsInv_congr d seen _ h
    intro p
    simp [scoreRowsFor]
  | cons row rest ih =>
    intro d seen h
    rw [List.foldl_cons]
    apply odsInv_congr _ _ _ (ih _ _ (odsStep_inv d seen row h))
    intro p
    by_cases hc : (row.package_name == p && row.task_status_key == "openness_score") = true
    · simp [scoreRowsFor, List.filter_cons, hc]
    · simp only [Bool.not_eq_true] at hc
      simp [scoreRowsFor, List.filter_cons, hc]

theorem odsData_inv (rows : List ScoreRow) :
    ∀ p, match assocGet? (odsData rows) p with
      | some e => e.openness_score =
            (odsSel (scoreRowsFor rows p)).map (fun r => r.task_status_value) ∧
          e.resource_id = (odsSel (scoreRowsFor rows p)).map (fun r => r.resource_id)
      | Option.none => scoreRowsFor rows p = [] := by
  intro p
  have h := odsFold_inv rows [] (fun _ => []) (by intro q; simp [assocGet?]) p
  simpa using h

theorem strLt_le_trans {a b c : String} (h1 : strLt a b = true) (h2 : strLe b c = true) :
    strLt a c = true := by
  simp only [strLe, Bool.not_eq_true'] at h2
  cases hbc : strLt b c with
  | true => exact strLt_trans h1 hbc
  | false => rw [← str_eq_of_not_lt hbc h2]; exact h1

theorem strLt_empty {s : String} (h : s ≠ "") : strLt "" s = true := by
  cases s with
  | mk d =>
    cases d with
    | nil => exact absurd rfl h
    | cons c cs => rfl

theorem strMax_empty_left {s : String} (h : s ≠ "") : strMax "" s = s := by
  unfold strMax
  rw [strLt_empty h]
  rfl

/-- Running string maximum of the score values of a list of score rows. -/
def maxScoreVal (l : List ScoreRow) : String :=
  (l.map (fun r => r.task_status_value)).foldl strMax ""

theorem odsSelFrom_eq_find (t : List ScoreRow) :
    ∀ (a : ScoreRow), a.task_status_value ≠ "" → (∀ r ∈ t, r.task_status_value ≠ "") →
      t.foldl odsSelStep (some a) =
        (a :: t).find? (fun r => r.task_status_value ==
          ((a :: t).map (fun x => x.task_status_value)).foldl strMax "") := by
  induction t with
  | nil =>
    intro a ha _
    rw [List.foldl_nil]
    have hM : (([a] : List ScoreRow).map (fun x => x.task_status_value)).foldl strMax "" =
        a.task_status_value := by
      simp [strMax_empty_left ha]
    exact (@List.find?_cons_of_pos _
      (fun r => r.task_status_value ==
        (([a] : List ScoreRow).map (fun x => x.task_status_value)).foldl strMax "")
      a [] (by rw [hM]; exact beq_self_eq_true _)).symm
  | cons r t ih =>
    intro a ha hall
    have hr : r.task_status_value ≠ "" := hall r (List.mem_cons_self r t)
    have ht : ∀ x ∈ t, x.task_status_value ≠ "" := fun x hx => hall x (List.mem_cons_of_mem r hx)
    have hae : (a.task_status_value == "") = false := beq_eq_false_iff_ne.mpr ha
    rw [List.foldl_cons]
    cases hlt : strLt a.task_status_value r.task_status_value with
    | true =>
      have hc : (a.task_status_value == "" ||
          strLt a.task_status_value r.task_status_value) = true := by
        rw [hae, hlt]
        rfl
      have hstep : odsSelStep (some a) r = some r := by
        simp only [odsSelStep, hc, if_true]
      have hMM : ((a :: r :: t).map (fun x => x.task_status_value)).foldl strMax "" =
          ((r :: t).map (fun x => x.task_status_value)).foldl strMax "" := by
        simp only [List.map_cons, List.foldl_cons, strMax_empty_left ha, strMax_empty_left hr]
        rw [show strMax a.task_status_value r.task_status_value = r.task_status_value by
          unfold strMax; rw [hlt]; rfl]
      rw [hstep, ih r hr ht, hMM]
      have hrM : strLe r.task_status_value
          (((r :: t).map (fun x => x.task_status_value)).foldl strMax "") = true := by
        apply foldl_strMax_mem_le
        simp
      have haM : strLt a.task_status_value
          (((r :: t).map (fun x => x.task_status_value)).foldl strMax "") = true :=
        strLt_le_trans hlt hrM
      have hpa : ¬ ((fun x => x.task_status_value ==
          (((r :: t).map (fun y => y.task_status_value)).foldl strMax "")) a = true) := by
        intro hcontra
        have he := beq_iff_eq.mp hcontra
        rw [he, strLt_irrefl] at haM
        cases haM
      rw [@List.find?_cons_of_neg _
        (fun x => x.task_status_value ==
          (((r :: t).map (fun y => y.task_status_value)).foldl strMax ""))
        a (r :: t) hpa]
    | false =>
      have hc : (a.task_status_value == "" ||
          strLt a.task_status_value r.task_status_value) = false := by
        rw [hae, hlt]
        rfl
      have hstep : odsSelStep (some a) r = some a := by
        simp only [odsSelStep, hc, Bool.false_eq_true, if_false]
      have hMM : ((a :: r :: t).map (fun x => x.task_status_value)).foldl strMax "" =
          ((a :: t).map (fun x => x.task_status_value)).foldl strMax "" := by
        simp only [List.map_cons, List.foldl_cons, strMax_empty_left ha]
        rw [show strMax a.task_status_value r.task_status_value = a.task_status_value by
          unfold strMax; rw [hlt]; rfl]
      rw [hstep, ih a ha ht, hMM]
      cases hpa : (a.task_status_value ==
          ((a :: t).map (fun x => x.task_status_value)).foldl strMax "") with
      | true =>
        rw [@List.find?_cons_of_pos _
          (fun x => x.task_status_value ==
            (((a :: t).map (fun y => y.task_status_value)).foldl strMax ""))
          a t hpa,
          @List.find?_cons_of_pos _
          (fun x => x.task_status_value ==
            (((a :: t).map (fun y => y.task_status_value)).foldl strMax ""))
          a (r :: t) hpa]
      | false =>
        have haleM : strLe a.task_status_value
            (((a :: t).map (fun x => x.task_status_value)).foldl strMax "") = true := by
          apply foldl_strMax_mem_le
          simp
        have haltM : strLt a.task_status_value
            (((a :: t).map (fun x => x.task_status_value)).foldl strMax "") = true :=
          strLt_of_le_ne haleM (beq_eq_false_iff_ne.mp hpa)
        have hrle : strLe r.task_status_value a.task_status_value = true := by
          simp [strLe, hlt]
        have hrltM : strLt r.task_status_value
            (((a :: t).map (fun x => x.task_status_value)).foldl strMax "") = true :=
          strLe_lt_trans hrle haltM
        have hpa2 : ¬ ((fun x => x.task_status_value ==
            (((a :: t).map (fun y => y.task_status_value)).foldl strMax "")) a = true) := by
          intro hcontra
          rw [show ((fun x => x.task_status_value ==
            (((a :: t).map (fun y => y.task_status_value)).foldl strMax "")) a) =
            (a.task_status_value ==
              (((a :: t).map (fun y => y.task_status_value)).foldl strMax "")) from rfl,
            hpa] at hcontra
          cases hcontra
        have hpr2 : ¬ ((fun x => x.task_status_value ==
            (((a :: t).map (fun y => y.task_status_value)).foldl strMax "")) r = true) := by
          intro hcontra
          have he := beq_iff_eq.mp hcontra
          rw [he, strLt_irrefl] at hrltM
          cases hrltM
        rw [@List.find?_cons_of_neg _
          (fun x => x.task_status_value ==
            (((a :: t).map (fun y => y.task_status_value)).foldl strMax ""))
          a t hpa2,
          @List.find?_cons_of_neg _
          (fun x => x.task_status_value ==
            (((a :: t).map (fun y => y.task_status_value)).foldl strMax ""))
          a (r :: t) hpa2,
          @List.find?_cons_of_neg _
          (fun x => x.task_status_value ==
            (((a :: t).map (fun y => y.task_status_value)).foldl strMax ""))
          r t hpr2]

theorem odsSel_eq_find (l : List ScoreRow) (h : ∀ r ∈ l, r.task_status_value ≠ "") :
    odsSel l = l.find? (fun r => r.task_status_value == maxScoreVal l) := by
  cases l with
  | nil => rfl
  | cons a t =>
    unfold odsSel maxScoreVal
    rw [List.foldl_cons]
    show t.foldl odsSelStep (some a) = _
    exact odsSelFrom_eq_find t a (h a (List.mem_cons_self a t))
      (fun x hx => h x (List.mem_cons_of_mem a hx))

theorem odsData_first_max (rows : List ScoreRow) (p : String)
    (hne : scoreRowsFor rows p ≠ [])
    (hval : ∀ r ∈ scoreRowsFor rows p, r.task_status_value ≠ "") :
    ∃ e, assocGet? (odsData rows) p = some e ∧
      e.openness_score = some (maxScoreVal (scoreRowsFor rows p)) ∧
      e.resource_id = ((scoreRowsFor rows p).find? (fun r =>
        r.task_status_value == maxScoreVal (scoreRowsFor rows p))).map
          (fun r => r.resource_id) := by
  have hinv := odsData_inv rows p
  cases hget : assocGet? (odsData rows) p with
  | none =>
    rw [hget] at hinv
    exact absurd hinv hne
  | some e =>
    rw [hget] at hinv
    refine ⟨e, rfl, ?_, ?_⟩
    · rw [hinv.1, odsSel_eq_find _ hval]
      have hMmem : maxScoreVal (scoreRowsFor rows p) ∈
          (scoreRowsFor rows p).map (fun r => r.task_status_value) := by
        rcases foldl_strMax_mem ((scoreRowsFor rows p).map (fun r => r.task_status_value)) ""
          with hm | hm
        · exfalso
          obtain ⟨r0, hr0⟩ : ∃ r0, r0 ∈ scoreRowsFor rows p := by
            cases hsr : scoreRowsFor rows p with
            | nil => exact absurd hsr hne
            | cons x xs => exact ⟨x, hsr ▸ List.mem_cons_self x xs⟩
          have h1 : strLe r0.task_status_value (maxScoreVal (scoreRowsFor rows p)) = true :=
            foldl_strMax_mem_le _ _ _ (List.mem_map.mpr ⟨r0, hr0, rfl⟩)
          have h2 : strLt "" r0.task_status_value = true := strLt_empty (hval r0 hr0)
          rw [show maxScoreVal (scoreRowsFor rows p) =
            ((scoreRowsFor rows p).map (fun r => r.task_status_value)).foldl strMax ""
            from rfl, hm, strLe, h2] at h1
          cases h1
        · exact hm
      rcases List.mem_map.mp hMmem with ⟨w0, hw0mem, hw0⟩
      cases hfind : (scoreRowsFor rows p).find? (fun r =>
          r.task_status_value == maxScoreVal (scoreRowsFor rows p)) with
      | none =>
        have hfs : ((scoreRowsFor rows p).find? (fun r =>
            r.task_status_value == maxScoreVal (scoreRowsFor rows p))).isSome = true :=
          List.find?_isSome.mpr ⟨w0, hw0mem, by rw [hw0]; exact beq_self_eq_true _⟩
        rw [hfind] at hfs
        cases hfs
      | some w =>
        have hw : w.task_status_value = maxScoreVal (scoreRowsFor rows p) :=
          beq_iff_eq.mp (@List.find?_some _ (fun r =>
            r.task_status_value == maxScoreVal (scoreRowsFor rows p)) w
            (scoreRowsFor rows p) hfind)
        exact congrArg some hw
    · rw [hinv.2, odsSel_eq_find _ hval]

/-- C1 amended: the dataset score reported by five_stars and by
organisation_dataset_scores is the maximum of the resources' score strings
in the lexicographic string order (SQL MAX over a text column, Python 2
string comparison), not the numeric maximum; in the per-organisation view
ties go to the first scored resource in input order, selected by find?
over the package's score rows. -/
theorem C1_score_max_amended :
    (∀ (db : Db), five_stars db Option.none =
        FiveStarsResult.results (fiveStarsData db Option.none)) ∧
      (∀ (db : Db) (pkgId : Option String), ∀ e ∈ fiveStarsData db pkgId,
        e.openness_score ∈ valuesFor (fiveStarsScoreRows db pkgId) (e.name, e.title) ∧
        ∀ s ∈ valuesFor (fiveStarsScoreRows db pkgId) (e.name, e.title),
          strLe s e.openness_score = true) ∧
      (∀ (db : Db) (org : String) (g : GroupRec) (rows : List ScoreRow),
        Group.by_name db org = some g →
        organisation_dataset_scores db org rows =
          Except.ok ⟨org, g.title, (odsData rows).map (fun kv => kv.2)⟩) ∧
      (∀ (rows : List ScoreRow) (p : String),
        scoreRowsFor rows p ≠ [] →
        (∀ r ∈ scoreRowsFor rows p, r.task_status_value ≠ "") →
        ∃ e, assocGet? (odsData rows) p = some e ∧
          e.openness_score = some (maxScoreVal (scoreRowsFor rows p)) ∧
          e.resource_id = ((scoreRowsFor rows p).find? (fun r =>
            r.task_status_value == maxScoreVal (scoreRowsFor rows p))).map
              (fun r => r.resource_id)) := by
  refine ⟨fun db => rfl, fiveStarsData_max, fun db org g rows h => ?_, odsData_first_max⟩
  simp [organisation_dataset_scores, h]

/-- Snapshot with one dataset whose two resources score 9 and 10. -/
def dbC1 : Db :=
  { task_status :=
      [⟨"r1", "qa", "openness_score", "9", Option.none, 1⟩,
       ⟨"r2", "qa", "openness_score", "10", Option.none, 2⟩]
    resource :=
      [⟨"r1", "http://r1", 0, "active", "rg1"⟩,
       ⟨"r2", "http://r2", 1, "active", "rg1"⟩]
    resource_group := [⟨"rg1", "d1", "active"⟩]
    package := [⟨"d1", "dataset-one", "Dataset One", "active"⟩]
    member := [⟨"d1", "g1"⟩]
    groups := [⟨"g1", "alpha", "Alpha", "active"⟩] }

/-- Sorted organisation_dataset_scores row stream of the same snapshot. -/
def rowsC1 : List ScoreRow :=
  [⟨"d1", "openness_score", "9", 1, "r1", "http://r1", 0, "Dataset One", "dataset-one",
     "g1", "alpha", "Alpha"⟩,
   ⟨"d1", "openness_score", "10", 2, "r2", "http://r2", 1, "Dataset One", "dataset-one",
     "g1", "alpha", "Alpha"⟩]

/-- C1 fails as stated: with scores 9 and 10 stored as the strings "9" and
"10", both views report "9" — the lexicographic maximum — while the
numeric maximum of the scores is 10. -/
theorem C1_counterexample :
    five_stars dbC1 Option.none =
        FiveStarsResult.results [⟨"dataset-one", "Dataset One", "9"⟩] ∧
      (fiveStarsScoreRows dbC1 Option.none).map (fun r => r.2.2) = ["9", "10"] ∧
      (odsData rowsC1).map (fun kv => kv.2.openness_score) = [some "9"] ∧
      parseNatDigits "9".data = some 9 ∧ parseNatDigits "10".data = some 10 ∧
      ([9, 10] : List Nat).foldl max 0 = 10 ∧ (9 : Nat) ≠ 10 :=
  ⟨rfl, rfl, rfl, by decide, by decide, by decide, by decide⟩

/-- Entry the per-organisation view builds for the dbC1 dataset. -/
def odsEntryC1 : OdsEntry :=
  { dataset_title := "Dataset One"
    dataset_name := "dataset-one"
    publisher_title := "Alpha"
    publisher_name := "alpha"
    resource_position := some 0
    resource_id := some "r1"
    resource_url := some "http://r1"
    openness_score := some "9"
    openness_score_reason := Option.none
    last_updated := some 1 }

/-- Witness for C1 amended at the concrete snapshot: the group's score
values are "9" and "10", the string order ranks "10" below "9", and both
views deliver "9" with the per-organisation view picking resource r1. -/
theorem C1_witness :
    valuesFor (fiveStarsScoreRows dbC1 Option.none) ("dataset-one", "Dataset One") =
        ["9", "10"] ∧
      strLe "10" "9" = true ∧
      maxScoreVal (scoreRowsFor rowsC1 "dataset-one") = "9" ∧
      assocGet? (odsData rowsC1) "dataset-one" = some odsEntryC1 ∧
      odsEntryC1.openness_score = some (maxScoreVal (scoreRowsFor rowsC1 "dataset-one")) ∧
      odsEntryC1.resource_id = some "r1" := by
  have h5 := (C1_score_max_amended.2.1 dbC1 Option.none
    ⟨"dataset-one", "Dataset One", "9"⟩ (by decide)).2 "10" (by decide)
  obtain ⟨e, hget, hscore, hid⟩ := C1_score_max_amended.2.2.2 rowsC1 "dataset-one"
    (by decide) (by decide)
  have hefix : e = odsEntryC1 := by
    have hcalc : assocGet? (odsData rowsC1) "dataset-one" = some odsEntryC1 := rfl
    rw [hget] at hcalc
    exact Option.some.inj hcalc
  subst hefix
  exact ⟨rfl, h5, rfl, hget, hscore, hid.trans rfl⟩

/-! ## organisations_with_broken_resource_links rollup machinery -/

/-- A successful assocGet? lookup's key/value pair occurs in the list. -/
theorem assocGet?_mem {κ ν : Type} [DecidableEq κ] (d : List (κ × ν)) (k : κ) (v : ν)
    (h : assocGet? d k = some v) : (k, v) ∈ d := by
  induction d with
  | nil => cases h
  | cons hd tl ih =>
    obtain ⟨a, b⟩ := hd
    by_cases h2 : a = k
    · subst h2
      simp only [assocGet?, if_pos rfl] at h
      injection h with hbv
      subst hbv
      exact List.mem_cons_self _ _
    · simp only [assocGet?, if_neg h2] at h
      exact List.mem_cons_of_mem _ (ih h)

/-- Setting a fresh key appends it to the key sequence. -/
theorem map_fst_assocSet_not_mem {κ ν : Type} [DecidableEq κ] (d : List (κ × ν)) (k : κ)
    (v : ν) (h : k ∉ d.map Prod.fst) :
    (assocSet d k v).map Prod.fst = d.map Prod.fst ++ [k] := by
  induction d with
  | nil => simp [assocSet]
  | cons hd tl ih =>
    have h1 : hd.1 ≠ k := fun he => h (by simp [he])
    have h2 : k ∉ tl.map Prod.fst := fun hm => h (by simp [hm])
    simp [assocSet, h1, ih h2]

/-- assocSet keeps the key sequence duplicate-free. -/
theorem nodup_keys_assocSet {κ ν : Type} [DecidableEq κ] (d : List (κ × ν)) (k : κ) (v : ν)
    (hnd : (d.map Prod.fst).Nodup) : ((assocSet d k v).map Prod.fst).Nodup := by
  by_cases h : k ∈ d.map Prod.fst
  · rw [map_fst_assocSet_mem d k v h]
    exact hnd
  · rw [map_fst_assocSet_not_mem d k v h]
    rw [List.nodup_append]
    exact ⟨hnd, List.nodup_singleton k, fun a ha hb => h (by
      rcases List.mem_singleton.mp hb with hb2
      exact hb2 ▸ ha)⟩

/-- The direct children of an organisation in the parent-link table of the
Organization Hierarchy Provider. -/
def childrenOf (parent : List (String × String)) (o : String) : List String :=
  (parent.filter (fun cp => cp.2 == o)).map Prod.fst

theorem mem_childrenOf (parent : List (String × String)) (o c : String)
    (hnd : (parent.map Prod.fst).Nodup) :
    c ∈ childrenOf parent o ↔ assocGet? parent c = some o := by
  constructor
  · intro h
    rcases List.mem_map.mp h with ⟨cp, hcp, hfst⟩
    rcases List.mem_filter.mp hcp with ⟨hmem, hp⟩
    have hsnd : cp.2 = o := beq_iff_eq.mp hp
    have hco : (c, o) ∈ parent := by
      have heta : (cp.1, cp.2) = cp := rfl
      rw [← hfst, ← hsnd, heta]
      exact hmem
    exact mem_assocGet? parent hnd c o hco
  · intro h
    exact List.mem_map.mpr ⟨(c, o),
      List.mem_filter.mpr ⟨assocGet?_mem parent c o h, by simp⟩, rfl⟩

theorem nodup_childrenOf (parent : List (String × String)) (o : String)
    (hnd : (parent.map Prod.fst).Nodup) : (childrenOf parent o).Nodup :=
  hnd.sublist (List.Sublist.map Prod.fst (List.filter_sublist parent))

/-- Pointwise sums of naturals split. -/
theorem sum_map_add {α : Type} (l : List α) (f g : α → Nat) :
    (l.map (fun x => f x + g x)).sum = (l.map f).sum + (l.map g).sum := by
  induction l with
  | nil => rfl
  | cons a l ih =>
    simp only [List.map_cons, List.sum_cons, ih]
    omega

/-- A sum of naturals distributes over a right factor. -/
theorem sum_map_mul {α : Type} (l : List α) (f : α → Nat) (b : Nat) :
    (l.map f).sum * b = (l.map (fun x => f x * b)).sum := by
  induction l with
  | nil => simp
  | cons a l ih => simp only [List.map_cons, List.sum_cons, Nat.add_mul, ih]

theorem sum_map_zero {α : Type} (l : List α) : (l.map (fun _ => (0 : Nat))).sum = 0 := by
  induction l with
  | nil => rfl
  | cons a l ih => simp [ih]

/-- Exchanging a double sum of naturals. -/
theorem sum_swap_nat {α β : Type} (l : List α) (m : List β) (f : α → β → Nat) :
    (l.map (fun x => (m.map (fun y => f x y)).sum)).sum =
      (m.map (fun y => (l.map (fun x => f x y)).sum)).sum := by
  induction l with
  | nil => simp [sum_map_zero]
  | cons a l ih =>
    simp only [List.map_cons, List.sum_cons, ih]
    exact (sum_map_add m (fun y => f a y) (fun y => (l.map (fun x => f x y)).sum)).symm

/-- Over a duplicate-free list an indicator sums to a membership test. -/
theorem sum_indicator_nodup {α : Type} [DecidableEq α] (l : List α) (p : α)
    (hnd : l.Nodup) :
    (l.map (fun c => if p = c then 1 else 0)).sum = if p ∈ l then 1 else 0 := by
  induction l with
  | nil => simp
  | cons a l ih =>
    rcases List.nodup_cons.mp hnd with ⟨ha, hl⟩
    by_cases h : p = a
    · subst h
      simp [ha, ih hl]
    · simp [h, ih hl]

theorem count_singleton_eq (p c : String) : List.count c [p] = if p = c then 1 else 0 := by
  by_cases h : p = c <;> simp [List.count_cons, List.count_nil, h]

/-- Multiplicity of an organisation in a rollup walk: the walk from p meets
o once when p is o itself, plus once for every passage through a direct
child of o, provided the parent links form a function graded by a depth
function and the fuel covers the walk. -/
theorem count_go_up_tree (parent : List (String × String)) (depth : String → Nat)
    (hkeys : (parent.map Prod.fst).Nodup)
    (hdepth : ∀ cp ∈ parent, depth cp.1 = depth cp.2 + 1) (o : String) :
    ∀ (fuel : Nat) (p : String), depth p + 1 ≤ fuel →
    List.count o (go_up_tree parent fuel p) =
      (if p = o then 1 else 0) +
        ((childrenOf parent o).map (fun c =>
          List.count c (go_up_tree parent fuel p))).sum := by
  intro fuel
  induction fuel with
  | zero => intro p h; exact absurd h (by omega)
  | succ f ih =>
    intro p hf
    cases hpar : assocGet? parent p with
    | none =>
      have hwalk : go_up_tree parent (f + 1) p = [p] := by
        simp [go_up_tree, hpar]
      rw [hwalk]
      have hnotch : p ∉ childrenOf parent o := by
        intro hmem
        rw [mem_childrenOf parent o p hkeys, hpar] at hmem
        cases hmem
      simp only [count_singleton_eq]
      rw [sum_indicator_nodup (childrenOf parent o) p (nodup_childrenOf parent o hkeys),
        if_neg hnotch]
      omega
    | some q =>
      have hpq : (p, q) ∈ parent := assocGet?_mem parent p q hpar
      have hdq : depth p = depth q + 1 := hdepth (p, q) hpq
      have hfq : depth q + 1 ≤ f := by omega
      have hwalk : go_up_tree parent (f + 1) p = p :: go_up_tree parent f q := by
        simp [go_up_tree, hpar]
      rw [hwalk]
      simp only [List.count_cons, beq_iff_eq]
      rw [ih q hfq]
      rw [sum_map_add (childrenOf parent o)
        (fun c => List.count c (go_up_tree parent f q)) (fun c => if p = c then 1 else 0)]
      rw [sum_indicator_nodup (childrenOf parent o) p (nodup_childrenOf parent o hkeys)]
      have hin : (if p ∈ childrenOf parent o then (1 : Nat) else 0) =
          if q = o then 1 else 0 := by
        by_cases h : q = o
        · subst h
          rw [if_pos ((mem_childrenOf parent q p hkeys).mpr hpar), if_pos rfl]
        · have h2 : p ∉ childrenOf parent o := by
            intro hmem
            rw [mem_childrenOf parent o p hkeys, hpar] at hmem
            exact h (Option.some.inj hmem)
          rw [if_neg h2, if_neg h]
      rw [hin]
      omega

/-- One dict update of the rollup's inner loop: add one row's two counts to
one organisation's entry of counts_by_publisher. -/
def pubStep (a b : Nat) (d : List (String × (Nat × Nat))) (pub : String) :
    List (String × (Nat × Nat)) :=
  let cur := lookupD d pub (0, 0)
  assocSet d pub (cur.1 + a, cur.2 + b)

/-- One row of the rollup's outer loop: walk from the row's publisher to the
root, adding the row's counts to every organisation passed. -/
def rollStep (parent : List (String × String)) (fuel : Nat)
    (d : List (String × (Nat × Nat))) (row : CountRow) : List (String × (Nat × Nat)) :=
  (go_up_tree parent fuel row.publisher_name).foldl
    (pubStep row.broken_package_count row.broken_resource_count) d

theorem rollupCounts_eq_foldl (parent : List (String × String)) (fuel : Nat)
    (rows : List CountRow) :
    rollupCounts parent fuel rows = rows.foldl (rollStep parent fuel) [] := rfl

theorem lookupD_pubFold (a b : Nat) (o : String) (ws : List String) :
    ∀ d : List (String × (Nat × Nat)),
    lookupD (ws.foldl (pubStep a b) d) o (0, 0) =
      ((lookupD d o (0, 0)).1 + List.count o ws * a,
       (lookupD d o (0, 0)).2 + List.count o ws * b) := by
  induction ws with
  | nil =>
    intro d
    simp only [List.foldl_nil, List.count_nil, Nat.zero_mul, Nat.add_zero]
  | cons w ws ih =>
    intro d
    rw [List.foldl_cons, ih]
    by_cases h : w = o
    · subst h
      have hself : lookupD (pubStep a b d w) w (0, 0) =
          ((lookupD d w (0, 0)).1 + a, (lookupD d w (0, 0)).2 + b) := by
        simp only [pubStep, lookupD, assocGet?_set_self, Option.getD_some]
      rw [hself, List.count_cons_self]
      simp only [Nat.add_mul, Nat.one_mul, Prod.mk.injEq]
      constructor
      · generalize List.count w ws * a = A
        omega
      · generalize List.count w ws * b = B
        omega
    · have hne : lookupD (pubStep a b d w) o (0, 0) = lookupD d o (0, 0) := by
        simp only [pubStep, lookupD]
        rw [assocGet?_set_ne d w o _ h]
      rw [hne, List.count_cons_of_ne (Ne.symm h)]

theorem lookupD_rollFold (parent : List (String × String)) (fuel : Nat) (o : String)
    (rows : List CountRow) :
    ∀ d : List (String × (Nat × Nat)),
    lookupD (rows.foldl (rollStep parent fuel) d) o (0, 0) =
      ((lookupD d o (0, 0)).1 + (rows.map (fun r =>
          List.count o (go_up_tree parent fuel r.publisher_name) *
            r.broken_package_count)).sum,
       (lookupD d o (0, 0)).2 + (rows.map (fun r =>
          List.count o (go_up_tree parent fuel r.publisher_name) *
            r.broken_resource_count)).sum) := by
  induction rows with
  | nil =>
    intro d
    simp only [List.foldl_nil, List.map_nil, List.sum_nil, Nat.add_zero]
  | cons r rows ih =>
    intro d
    rw [List.foldl_cons, ih]
    have hr : lookupD (rollStep parent fuel d r) o (0, 0) =
        ((lookupD d o (0, 0)).1 +
           List.count o (go_up_tree parent fuel r.publisher_name) * r.broken_package_count,
         (lookupD d o (0, 0)).2 +
           List.count o (go_up_tree parent fuel r.publisher_name) * r.broken_resource_count) :=
      lookupD_pubFold r.broken_package_count r.broken_resource_count o
        (go_up_tree parent fuel r.publisher_name) d
    rw [hr]
    simp only [List.map_cons, List.sum_cons, Prod.mk.injEq]
    exact ⟨Nat.add_assoc _ _ _, Nat.add_assoc _ _ _⟩

theorem nodup_keys_pubFold (a b : Nat) (ws : List String) :
    ∀ d : List (String × (Nat × Nat)), (d.map Prod.fst).Nodup →
      ((ws.foldl (pubStep a b) d).map Prod.fst).Nodup := by
  induction ws with
  | nil => intro d h; simpa using h
  | cons w ws ih =>
    intro d h
    rw [List.foldl_cons]
    exact ih _ (nodup_keys_assocSet d w _ h)

theorem nodup_keys_rollup (parent : List (String × String)) (fuel : Nat)
    (rows : List CountRow) : ((rollupCounts parent fuel rows).map Prod.fst).Nodup := by
  rw [rollupCounts_eq_foldl]
  have hgen : ∀ (rs : List CountRow) (d : List (String × (Nat × Nat))),
      (d.map Prod.fst).Nodup → ((rs.foldl (rollStep parent fuel) d).map Prod.fst).Nodup := by
    intro rs
    induction rs with
    | nil => intro d h; simpa using h
    | cons r rs ih =>
      intro d h
      rw [List.foldl_cons]
      exact ih _ (nodup_keys_pubFold _ _ _ d h)
  exact hgen rows [] (by simp)

/-- Componentwise total of the two broken counts a report's entries give for
one organisation name. -/
def sumCountsFor (out : List PubCounts) (o : String) : Nat × Nat :=
  (((out.filter (fun e => e.publisher_name == o)).map
      (fun e => e.broken_package_count)).sum,
   ((out.filter (fun e => e.publisher_name == o)).map
      (fun e => e.broken_resource_count)).sum)

/-- Componentwise pair addition of count pairs. -/
def addPair (a b : Nat × Nat) : Nat × Nat := (a.1 + b.1, a.2 + b.2)

/-- Componentwise total of a list of count pairs. -/
def sumPairs (l : List (Nat × Nat)) : Nat × Nat :=
  ((l.map Prod.fst).sum, (l.map Prod.snd).sum)

theorem sumCountsFor_perm (out1 out2 : List PubCounts) (h : out1.Perm out2) (o : String) :
    sumCountsFor out1 o = sumCountsFor out2 o := by
  unfold sumCountsFor
  rw [Prod.mk.injEq]
  exact ⟨List.Perm.sum_eq (List.Perm.map _ (List.Perm.filter _ h)),
         List.Perm.sum_eq (List.Perm.map _ (List.Perm.filter _ h))⟩

theorem sumCountsFor_entries (l : List (String × (Nat × Nat))) (titleOf : String → String)
    (o : String) :
    sumCountsFor (l.map (fun kv => ⟨titleOf kv.1, kv.1, kv.2.1, kv.2.2⟩)) o =
      (((l.filter (fun kv => kv.1 == o)).map (fun kv => kv.2.1)).sum,
       ((l.filter (fun kv => kv.1 == o)).map (fun kv => kv.2.2)).sum) := by
  induction l with
  | nil => rfl
  | cons kv l ih =>
    simp only [sumCountsFor, List.map_cons, List.filter_cons] at ih ⊢
    rw [Prod.mk.injEq] at ih
    by_cases h : kv.1 = o
    · simp [h, ih.1, ih.2]
    · simp [h, ih.1, ih.2]

theorem filter_key_nodup (l : List (String × (Nat × Nat))) (o : String)
    (hnd : (l.map Prod.fst).Nodup) :
    (((l.filter (fun kv => kv.1 == o)).map (fun kv => kv.2.1)).sum,
     ((l.filter (fun kv => kv.1 == o)).map (fun kv => kv.2.2)).sum) =
      lookupD l o (0, 0) := by
  induction l with
  | nil => rfl
  | cons kv l ih =>
    obtain ⟨k, v⟩ := kv
    have hnd2 : (k :: l.map Prod.fst).Nodup := by simpa using hnd
    rcases List.nodup_cons.mp hnd2 with ⟨hk, hl⟩
    by_cases h : k = o
    · have hnil : l.filter (fun kv2 => kv2.1 == o) = [] := by
        rw [List.filter_eq_nil_iff]
        intro a ha
        simp only [beq_iff_eq]
        intro he
        exact hk (by
          rw [h, ← he]
          exact List.mem_map.mpr ⟨a, ha, rfl⟩)
      simp [List.filter_cons, h, hnil, lookupD, assocGet?]
    · simp only [List.filter_cons, beq_iff_eq, h, if_false, lookupD, assocGet?]
      exact ih hl

theorem rollup_output_lookup (parent : List (String × String)) (titleOf : String → String)
    (fuel : Nat) (rows : List CountRow) (o : String) :
    sumCountsFor (organisations_with_broken_resource_links parent titleOf fuel rows true) o =
      lookupD (rollupCounts parent fuel rows) o (0, 0) := by
  have hperm := List.perm_insertionSort
    (fun (a b : String × (Nat × Nat)) => strLe (titleOf a.1) (titleOf b.1) = true)
    (rollupCounts parent fuel rows)
  rw [show organisations_with_broken_resource_links parent titleOf fuel rows true =
      (List.insertionSort (fun a b => strLe (titleOf a.1) (titleOf b.1) = true)
        (rollupCounts parent fuel rows)).map
        (fun kv => ⟨titleOf kv.1, kv.1, kv.2.1, kv.2.2⟩) from rfl]
  rw [sumCountsFor_perm _ _ (List.Perm.map _ hperm) o]
  rw [sumCountsFor_entries]
  exact filter_key_nodup _ o (nodup_keys_rollup parent fuel rows)

theorem flat_output_sum (parent : List (String × String)) (titleOf : String → String)
    (fuel : Nat) (rows : List CountRow) (o : String) :
    sumCountsFor (organisations_with_broken_resource_links parent titleOf fuel rows false) o =
      ((rows.map (fun r => if r.publisher_name = o then r.broken_package_count else 0)).sum,
       (rows.map (fun r => if r.publisher_name = o then r.broken_resource_count else 0)).sum) := by
  rw [show organisations_with_broken_resource_links parent titleOf fuel rows false =
      rows.map (fun r =>
        ⟨r.publisher_title, r.publisher_name, r.broken_package_count,
          r.broken_resource_count⟩) from rfl]
  induction rows with
  | nil => rfl
  | cons r rows ih =>
    simp only [sumCountsFor, List.map_cons, List.filter_cons] at ih ⊢
    rw [Prod.mk.injEq] at ih
    by_cases h : r.publisher_name = o
    · simp [h, ih.1, ih.2]
    · simp [h, ih.1, ih.2]

theorem rollup_lookup_sum (parent : List (String × String)) (fuel : Nat)
    (rows : List CountRow) (o : String) :
    lookupD (rollupCounts parent fuel rows) o (0, 0) =
      ((rows.map (fun r => List.count o (go_up_tree parent fuel r.publisher_name) *
          r.broken_package_count)).sum,
       (rows.map (fun r => List.count o (go_up_tree parent fuel r.publisher_name) *
          r.broken_resource_count)).sum) := by
  rw [rollupCounts_eq_foldl, lookupD_rollFold]
  simp [lookupD, assocGet?]

theorem sumPairs_map {α : Type} (l : List α) (f g : α → Nat) :
    sumPairs (l.map (fun x => (f x, g x))) = ((l.map f).sum, (l.map g).sum) := by
  induction l with
  | nil => rfl
  | cons a l ih =>
    simp only [List.map_cons, sumPairs, List.sum_cons] at ih ⊢
    rw [Prod.mk.injEq] at ih ⊢
    exact ⟨by rw [ih.1], by rw [ih.2]⟩

/-- One component of the rollup total for o splits into o's own flat
contribution plus the rollup totals of o's direct children. -/
theorem rollup_component_split (parent : List (String × String)) (depth : String → Nat)
    (fuel : Nat) (rows : List CountRow) (o : String) (f : CountRow → Nat)
    (hkeys : (parent.map Prod.fst).Nodup)
    (hdepth : ∀ cp ∈ parent, depth cp.1 = depth cp.2 + 1)
    (hfuel : ∀ r ∈ rows, depth r.publisher_name + 1 ≤ fuel) :
    (rows.map (fun r => List.count o (go_up_tree parent fuel r.publisher_name) * f r)).sum =
      (rows.map (fun r => if r.publisher_name = o then f r else 0)).sum +
        ((childrenOf parent o).map (fun c =>
          (rows.map (fun r =>
            List.count c (go_up_tree parent fuel r.publisher_name) * f r)).sum)).sum := by
  revert hfuel
  induction rows with
  | nil =>
    intro _
    simp [sum_map_zero]
  | cons r rows ih =>
    intro hfuel
    have hr := count_go_up_tree parent depth hkeys hdepth o fuel r.publisher_name
      (hfuel r (List.mem_cons_self r rows))
    have ihr := ih (fun r2 hr2 => hfuel r2 (List.mem_cons_of_mem r hr2))
    simp only [List.map_cons, List.sum_cons]
    rw [ihr, hr, Nat.add_mul]
    rw [show (if r.publisher_name = o then 1 else 0) * f r =
        (if r.publisher_name = o then f r else 0) from by
      by_cases h : r.publisher_name = o <;> simp [h]]
    rw [sum_map_mul (childrenOf parent o)
      (fun c => List.count c (go_up_tree parent fuel r.publisher_name)) (f r)]
    rw [sum_map_add (childrenOf parent o)
      (fun c => List.count c (go_up_tree parent fuel r.publisher_name) * f r)
      (fun c => (rows.map (fun r2 =>
        List.count c (go_up_tree parent fuel r2.publisher_name) * f r2)).sum)]
    omega

/-- C5: with the external hierarchy well-formed — each organisation has at
most one parent link (duplicate-free keys), the links are graded by a depth
function (so acyclic), and the recursion fuel covers every row's walk — the
rolled-up counts of organisations_with_broken_resource_links with
include_sub_organisations for any organisation o equal o's own flat counts
(the include_sub_organisations=False output) plus the sum of the rolled-up
counts of o's direct children, so every descendant is counted exactly once
per ancestor. -/
theorem C5_rollup_additivity (parent : List (String × String)) (titleOf : String → String)
    (depth : String → Nat) (fuel : Nat) (rows : List CountRow) (o : String)
    (hkeys : (parent.map Prod.fst).Nodup)
    (hdepth : ∀ cp ∈ parent, depth cp.1 = depth cp.2 + 1)
    (hfuel : ∀ r ∈ rows, depth r.publisher_name + 1 ≤ fuel) :
    sumCountsFor (organisations_with_broken_resource_links parent titleOf fuel rows true) o =
      addPair
        (sumCountsFor
          (organisations_with_broken_resource_links parent titleOf fuel rows false) o)
        (sumPairs ((childrenOf parent o).map (fun c =>
          sumCountsFor
            (organisations_with_broken_resource_links parent titleOf fuel rows true) c))) := by
  have h1 := rollup_component_split parent depth fuel rows o
    (fun r => r.broken_package_count) hkeys hdepth hfuel
  have h2 := rollup_component_split parent depth fuel rows o
    (fun r => r.broken_resource_count) hkeys hdepth hfuel
  rw [rollup_output_lookup parent titleOf fuel rows o, rollup_lookup_sum]
  rw [flat_output_sum parent titleOf fuel rows o]
  simp only [rollup_output_lookup, rollup_lookup_sum]
  rw [sumPairs_map]
  simp only [addPair]
  rw [Prod.mk.injEq]
  exact ⟨h1, h2⟩

/-- Synthetic 3-level hierarchy: alpha is the root, beta and delta its
children, gamma a child of beta. -/
def parentC5 : List (String × String) :=
  [("beta", "alpha"), ("gamma", "beta"), ("delta", "alpha")]

/-- Depth grading of parentC5. -/
def depthC5 (s : String) : Nat :=
  if s = "beta" then 1 else if s = "delta" then 1 else if s = "gamma" then 2 else 0

/-- Title lookup of the synthetic hierarchy. -/
def titleOfC5 (s : String) : String := s

/-- One GROUP BY row per organisation of the synthetic hierarchy. -/
def rowsC5 : List CountRow :=
  [⟨1, 2, "alpha", "alpha"⟩, ⟨1, 3, "beta", "beta"⟩,
   ⟨2, 5, "gamma", "gamma"⟩, ⟨1, 1, "delta", "delta"⟩]

/-- Witness for C5 on the synthetic 3-level tree: the hierarchy hypotheses
hold by computation, the additivity theorem applies at organisation alpha,
and the rolled-up totals there evaluate to the flat counts of alpha plus the
rolled-up counts of its children beta and delta: (1,2) + (3,8) + (1,1) =
(5,11). -/
theorem C5_witness :
    ((parentC5.map Prod.fst).Nodup ∧
      (∀ cp ∈ parentC5, depthC5 cp.1 = depthC5 cp.2 + 1) ∧
      (∀ r ∈ rowsC5, depthC5 r.publisher_name + 1 ≤ 3)) ∧
    sumCountsFor (organisations_with_broken_resource_links parentC5 titleOfC5 3 rowsC5 true)
        "alpha" =
      addPair
        (sumCountsFor
          (organisations_with_broken_resource_links parentC5 titleOfC5 3 rowsC5 false) "alpha")
        (sumPairs ((childrenOf parentC5 "alpha").map (fun c =>
          sumCountsFor
            (organisations_with_broken_resource_links parentC5 titleOfC5 3 rowsC5 true) c))) ∧
    sumCountsFor (organisations_with_broken_resource_links parentC5 titleOfC5 3 rowsC5 true)
        "alpha" = (5, 11) ∧
    childrenOf parentC5 "alpha" = ["beta", "delta"] :=
  ⟨⟨by decide, by decide, by decide⟩,
   C5_rollup_additivity parentC5 titleOfC5 depthC5 3 rowsC5 "alpha"
     (by decide) (by decide) (by decide),
   by decide, by decide⟩
